import Mathlib

/-!
Shallow embedding of the flt-html renderer (`src/main.js`, class `HTMLRendererPlugin`,
current variant, lines 1-333).  The render loop of `toHTMLDOM` walks an ordered list
of typed/text lines, mutating a DOM document; sections are only ever appended to the
document body, paragraphs only to sections / asides / table cells, tables only to
sections, and inline content only to p / h2 / th / td containers, so the tree is
modelled with one type per layer.  The mutable render context (`noteIndex`, `link`,
`hint`, `blob`, `sect`, `dest`) becomes an explicit state record; the current section
`sect` is always the last element child of body, so the body is kept as the list of
children before it (`done`) plus `sect` itself.
-/

namespace FltHtml

/-- Alignment constants `FLT.Constants.ALIGN_LEFT/CENTER/RIGHT`. -/
inductive Align where
  | left
  | center
  | right
deriving DecidableEq

/-- Render destination constants `FLT.Constants.D_BODY/D_NOTE/D_CELL/D_HEAD`. -/
inductive Dest where
  | body
  | note
  | cell
  | head
deriving DecidableEq

/-- The `alignClasses` lookup table (main.js lines 20-24). -/
def alignClass : Align → String
  | .left => "align-left"
  | .center => "align-center"
  | .right => "align-right"

/-- Inline DOM nodes as built by the render loop: text nodes, and the elements
`a`, `em`, `strong`, `span`, `sup`, `sub`, `img`, `br`.  Attributes are kept in
`setAttribute` order; the class list in `classList.add` order. -/
inductive Inline where
  | textNode (s : String)
  | elt (tag : String) (attrs : List (String × String)) (classes : List String)
        (kids : List Inline)

mutual

def Inline.decEq : (a b : Inline) → Decidable (a = b)
  | .textNode s, .textNode t =>
    if h : s = t then .isTrue (by rw [h]) else .isFalse (by intro hc; injection hc; contradiction)
  | .textNode _, .elt _ _ _ _ => .isFalse (by intro hc; exact Inline.noConfusion hc)
  | .elt _ _ _ _, .textNode _ => .isFalse (by intro hc; exact Inline.noConfusion hc)
  | .elt t1 a1 c1 k1, .elt t2 a2 c2 k2 =>
    if h1 : t1 = t2 then
      if h2 : a1 = a2 then
        if h3 : c1 = c2 then
          match Inline.decEqList k1 k2 with
          | .isTrue h4 => .isTrue (by rw [h1, h2, h3, h4])
          | .isFalse h4 => .isFalse (by intro hc; injection hc; contradiction)
        else .isFalse (by intro hc; injection hc; contradiction)
      else .isFalse (by intro hc; injection hc; contradiction)
    else .isFalse (by intro hc; injection hc; contradiction)

def Inline.decEqList : (a b : List Inline) → Decidable (a = b)
  | [], [] => .isTrue rfl
  | [], _ :: _ => .isFalse (by intro hc; exact List.noConfusion hc)
  | _ :: _, [] => .isFalse (by intro hc; exact List.noConfusion hc)
  | x :: xs, y :: ys =>
    match Inline.decEq x y, Inline.decEqList xs ys with
    | .isTrue h1, .isTrue h2 => .isTrue (by rw [h1, h2])
    | .isFalse h1, _ => .isFalse (by intro hc; injection hc; contradiction)
    | .isTrue _, .isFalse h2 => .isFalse (by intro hc; injection hc; contradiction)

end

instance : DecidableEq Inline := Inline.decEq

/-- A `p` element: its class list and child nodes. -/
structure Para where
  classes : List String
  kids : List Inline
deriving DecidableEq

/-- Children of an `aside` or of a table cell: paragraphs mixed with inline
content (text appended directly to a cell before any `T_PARAGRAPH`, and the
back-reference anchor of an aside). -/
inductive MixedChild where
  | inline (v : Inline)
  | par (v : Para)
deriving DecidableEq

/-- A `th` (header = true) or `td` (header = false) element. -/
structure Cell where
  header : Bool
  kids : List MixedChild
deriving DecidableEq

/-- A `table` element: the `fltColumns` expando property set by the `T_TABLE`
handler, and the `tr` rows. -/
structure Table where
  fltColumns : Int
  rows : List (List Cell)
deriving DecidableEq

/-- Children of a `section` element: paragraphs, `h2` headings, tables, asides. -/
inductive SectChild where
  | par (v : Para)
  | h2 (kids : List Inline)
  | tbl (t : Table)
  | aside (kids : List MixedChild)
deriving DecidableEq

/-- A `section` element. -/
structure Sect where
  classes : List String
  kids : List SectChild
deriving DecidableEq

/-- Children of `document.body`: the optional title `h1`, `hr` separators
inserted before sections, and the sections themselves. -/
inductive BodyChild where
  | h1 (title : String)
  | hr
  | sec (s : Sect)
deriving DecidableEq

/-- A text line (`FLT.TextLine`): literal text plus inline style flags. -/
structure TextLine where
  text : String
  italic : Bool := false
  bold : Bool := false
  underline : Bool := false
  strikeout : Bool := false
  mono : Bool := false
  supertext : Bool := false
  subtext : Bool := false
  reset : Bool := false
deriving DecidableEq

/-- The `lineType` tag of a typed line together with the fields the handler of
that type reads.  `tImage`'s content is `Option String` with `none` standing
for a nullish source (the handler tests JS truthiness). -/
inductive TypeLineKind where
  | tSection (align : Option Align) (brk : Bool)
  | tParagraph (align : Option Align)
  | tHint (content : String)
  | tLink (content : String)
  | tAnchor (content : String)
  | tBlob (mediaType : String) (data : String)
  | tImage (content : Option String)
  | tTable (content : Int)
  | tDestination (destination : Dest) (header : Bool)
deriving DecidableEq

/-- A typed line (`FLT.TypeLine`). -/
structure TypeLine where
  kind : TypeLineKind
  reset : Bool := false
deriving DecidableEq

/-- One line of the input stream. -/
inductive Line where
  | typed (t : TypeLine)
  | text (t : TextLine)
deriving DecidableEq

/-- JS truthiness of a nullable string: null and the empty string are falsy.
Used for `if (line.content)` and `if (hint)`. -/
def strTruthy : Option String → Bool
  | none => false
  | some s => s != ""

/-- Failure kinds observable from the render loop: `FLT.Error.FLTError` (the
single "rendering error" kind, carrying a message), the `RangeError` raised by
a BigInt division by zero, and the `TypeError` raised by dereferencing an
undefined query result. -/
inductive RErr where
  | flt (msg : String)
  | range
  | typeErr
deriving DecidableEq

/-- Locator, relative to the current section, for the node `destEl` resolves
to.  `child i` is `sect.kids[i]` (a p or h2); `asideP i j` is the p at index
`j` inside the aside at `sect.kids[i]`; `cellSelf i r c` is cell `c` of row
`r` of the table at `sect.kids[i]`; `cellP i r c j` is the p at index `j`
inside that cell. -/
inductive Loc where
  | child (i : Nat)
  | asideP (i j : Nat)
  | cellSelf (i r c : Nat)
  | cellP (i r c j : Nat)
deriving DecidableEq

/-- The render context of `toHTMLDOM` (main.js lines 121-135) plus the body
built so far.  `done` lists the body children before the current section;
`sect` is always the last element child of body.  `link` locates the currently
open anchor as (container locator, index in the container's child list). -/
structure RState where
  done : List BodyChild
  sect : Sect
  noteIndex : Nat
  link : Option (Loc × Nat)
  hint : Option String
  blob : Option (String × String)
  dest : Dest
deriving DecidableEq

/-- Update the element at index `n` of a list, failing if the index is out of
range or the update itself fails. -/
def updIdx : List α → Nat → (α → Option α) → Option (List α)
  | [], _, _ => none
  | a :: l, 0, f => (f a).map (· :: l)
  | a :: l, n + 1, f => (updIdx l n f).map (a :: ·)

/-- Index of the last element of a list satisfying `pred` (the `slice(-1)[0]`
idiom over `querySelectorAll` results, and `table:last-of-type`). -/
def lastIdxWhere (pred : α → Bool) : List α → Option Nat
  | [] => none
  | a :: l =>
    match lastIdxWhere pred l with
    | some i => some (i + 1)
    | none => if pred a then some 0 else none

def isParMixed : MixedChild → Bool
  | .par _ => true
  | .inline _ => false

def isAsideChild : SectChild → Bool
  | .aside _ => true
  | _ => false

def isTblChild : SectChild → Bool
  | .tbl _ => true
  | _ => false

def isSecBody : BodyChild → Bool
  | .sec _ => true
  | _ => false

/-- Document-order locators of every `th`/`td` in the section (the
`sect.querySelectorAll("th, td")` query of `destEl`'s `D_CELL` case: tables
only occur as direct section children, rows and cells in order). -/
def allCellLocs (s : Sect) : List (Nat × Nat × Nat) :=
  (s.kids.enum.map fun ik =>
    match ik.2 with
    | .tbl t =>
      (t.rows.enum.map fun rr =>
        (List.range rr.2.length).map fun c => (ik.1, rr.1, c)).flatten
    | _ => []).flatten

/-- Fetch the cell a locator triple points at. -/
def getCell (s : Sect) (i r c : Nat) : Option Cell :=
  match s.kids[i]? with
  | some (.tbl t) => t.rows[r]?.bind fun row => row[c]?
  | _ => none

/-- The `destEl` closure (main.js lines 132-164): resolve the node new content
is appended to, for the current destination.  The `D_BODY` and `D_HEAD` cases
may append a fresh `p`/`h2` to the section, so the possibly-updated section is
returned too.  Where the JS would dereference an `undefined` query result
(either inside `destEl` or, for an `undefined` return value, immediately at
every call site), this returns `RErr.typeErr`. -/
def destEl (dest : Dest) (s : Sect) : Except RErr (Loc × Sect) :=
  match dest with
  | .body =>
    match s.kids.getLast? with
    | some (.par _) => .ok (.child (s.kids.length - 1), s)
    | _ => .ok (.child s.kids.length, { s with kids := s.kids ++ [.par ⟨[], []⟩] })
  | .head =>
    match s.kids.getLast? with
    | some (.h2 _) => .ok (.child (s.kids.length - 1), s)
    | _ => .ok (.child s.kids.length, { s with kids := s.kids ++ [.h2 []] })
  | .note =>
    match lastIdxWhere isAsideChild s.kids with
    | none => .error .typeErr
    | some i =>
      match s.kids[i]? with
      | some (.aside ks) =>
        match lastIdxWhere isParMixed ks with
        | some j => .ok (.asideP i j, s)
        | none => .error .typeErr
      | _ => .error .typeErr
  | .cell =>
    match (allCellLocs s).getLast? with
    | none => .error .typeErr
    | some (i, r, c) =>
      match getCell s i r c with
      | none => .error .typeErr
      | some cell =>
        match lastIdxWhere isParMixed cell.kids with
        | some j => .ok (.cellP i r c j, s)
        | none => .ok (.cellSelf i r c, s)

/-- Append one inline node to the child list of the container `loc` points at
(`appendChild` on a `destEl` result). -/
def appendAtLoc (s : Sect) (loc : Loc) (x : Inline) : Option Sect :=
  match loc with
  | .child i =>
    (updIdx s.kids i fun k =>
      match k with
      | .par p => some (.par { p with kids := p.kids ++ [x] })
      | .h2 ks => some (.h2 (ks ++ [x]))
      | _ => none).map fun kids => { s with kids := kids }
  | .asideP i j =>
    (updIdx s.kids i fun k =>
      match k with
      | .aside ks =>
        (updIdx ks j fun m =>
          match m with
          | .par p => some (.par { p with kids := p.kids ++ [x] })
          | _ => none).map .aside
      | _ => none).map fun kids => { s with kids := kids }
  | .cellSelf i r c =>
    (updIdx s.kids i fun k =>
      match k with
      | .tbl t =>
        (updIdx t.rows r fun row =>
          updIdx row c fun cell => some { cell with kids := cell.kids ++ [.inline x] }).map
          fun rows => .tbl { t with rows := rows }
      | _ => none).map fun kids => { s with kids := kids }
  | .cellP i r c j =>
    (updIdx s.kids i fun k =>
      match k with
      | .tbl t =>
        (updIdx t.rows r fun row =>
          updIdx row c fun cell =>
            (updIdx cell.kids j fun m =>
              match m with
              | .par p => some (.par { p with kids := p.kids ++ [x] })
              | _ => none).map fun ks => { cell with kids := ks }).map
          fun rows => .tbl { t with rows := rows }
      | _ => none).map fun kids => { s with kids := kids }

/-- Append several inline nodes in order at a locator. -/
def appendListAtLoc (s : Sect) (loc : Loc) : List Inline → Option Sect
  | [] => some s
  | x :: xs => (appendAtLoc s loc x).bind (appendListAtLoc · loc xs)

/-- Length of the child list of the container `loc` points at (the index the
next appended child will get). -/
def containerLen (s : Sect) (loc : Loc) : Option Nat :=
  match loc with
  | .child i =>
    match s.kids[i]? with
    | some (.par p) => some p.kids.length
    | some (.h2 ks) => some ks.length
    | _ => none
  | .asideP i j =>
    match s.kids[i]? with
    | some (.aside ks) =>
      match ks[j]? with
      | some (.par p) => some p.kids.length
      | _ => none
    | _ => none
  | .cellSelf i r c => (getCell s i r c).map fun cell => cell.kids.length
  | .cellP i r c j =>
    (getCell s i r c).bind fun cell =>
      match cell.kids[j]? with
      | some (.par p) => some p.kids.length
      | _ => none

/-- Append inline nodes into the element at index `n` of the container `loc`
points at (appending into the open link anchor). -/
def intoElt (adds : List Inline) : Inline → Option Inline
  | .elt t a c k => some (.elt t a c (k ++ adds))
  | .textNode _ => none

def intoMixed (adds : List Inline) : MixedChild → Option MixedChild
  | .inline v => (intoElt adds v).map .inline
  | .par _ => none

def appendIntoAnchor (s : Sect) (loc : Loc) (n : Nat) (adds : List Inline) : Option Sect :=
  match loc with
  | .child i =>
    (updIdx s.kids i fun k =>
      match k with
      | .par p => (updIdx p.kids n (intoElt adds)).map fun ks => .par { p with kids := ks }
      | .h2 ks => (updIdx ks n (intoElt adds)).map .h2
      | _ => none).map fun kids => { s with kids := kids }
  | .asideP i j =>
    (updIdx s.kids i fun k =>
      match k with
      | .aside ks =>
        (updIdx ks j fun m =>
          match m with
          | .par p => (updIdx p.kids n (intoElt adds)).map fun ps => .par { p with kids := ps }
          | _ => none).map .aside
      | _ => none).map fun kids => { s with kids := kids }
  | .cellSelf i r c =>
    (updIdx s.kids i fun k =>
      match k with
      | .tbl t =>
        (updIdx t.rows r fun row =>
          updIdx row c fun cell =>
            (updIdx cell.kids n (intoMixed adds)).map fun ks => { cell with kids := ks }).map
          fun rows => .tbl { t with rows := rows }
      | _ => none).map fun kids => { s with kids := kids }
  | .cellP i r c j =>
    (updIdx s.kids i fun k =>
      match k with
      | .tbl t =>
        (updIdx t.rows r fun row =>
          updIdx row c fun cell =>
            (updIdx cell.kids j fun m =>
              match m with
              | .par p =>
                (updIdx p.kids n (intoElt adds)).map fun ps => .par { p with kids := ps }
              | _ => none).map fun ks => { cell with kids := ks }).map
          fun rows => .tbl { t with rows := rows }
      | _ => none).map fun kids => { s with kids := kids }

/-- Set an attribute on the element at index `n` of the container `loc` points
at.  At every call site the attribute is set on a freshly created element that
does not carry it yet, so `setAttribute` amounts to appending the pair. -/
def setAttrElt (kv : String × String) : Inline → Option Inline
  | .elt t a c k => some (.elt t (a ++ [kv]) c k)
  | .textNode _ => none

def setAttrMixed (kv : String × String) : MixedChild → Option MixedChild
  | .inline v => (setAttrElt kv v).map .inline
  | .par _ => none

def setAttrAt (s : Sect) (loc : Loc) (n : Nat) (kv : String × String) : Option Sect :=
  match loc with
  | .child i =>
    (updIdx s.kids i fun k =>
      match k with
      | .par p => (updIdx p.kids n (setAttrElt kv)).map fun ks => .par { p with kids := ks }
      | .h2 ks => (updIdx ks n (setAttrElt kv)).map .h2
      | _ => none).map fun kids => { s with kids := kids }
  | .asideP i j =>
    (updIdx s.kids i fun k =>
      match k with
      | .aside ks =>
        (updIdx ks j fun m =>
          match m with
          | .par p => (updIdx p.kids n (setAttrElt kv)).map fun ps => .par { p with kids := ps }
          | _ => none).map .aside
      | _ => none).map fun kids => { s with kids := kids }
  | .cellSelf i r c =>
    (updIdx s.kids i fun k =>
      match k with
      | .tbl t =>
        (updIdx t.rows r fun row =>
          updIdx row c fun cell =>
            (updIdx cell.kids n (setAttrMixed kv)).map fun ks => { cell with kids := ks }).map
          fun rows => .tbl { t with rows := rows }
      | _ => none).map fun kids => { s with kids := kids }
  | .cellP i r c j =>
    (updIdx s.kids i fun k =>
      match k with
      | .tbl t =>
        (updIdx t.rows r fun row =>
          updIdx row c fun cell =>
            (updIdx cell.kids j fun m =>
              match m with
              | .par p =>
                (updIdx p.kids n (setAttrElt kv)).map fun ps => .par { p with kids := ps }
              | _ => none).map fun ks => { cell with kids := ks }).map
          fun rows => .tbl { t with rows := rows }
      | _ => none).map fun kids => { s with kids := kids }

/-- Whether the node at `out` contains the anchor whose container is `lloc`
(the `out.contains(link)` test).  The anchor is a direct child of its
container, so containment holds when the containers coincide, or when `out`
is a cell and the anchor's container is a paragraph inside that cell. -/
def locContains (out lloc : Loc) : Bool :=
  match out, lloc with
  | .cellSelf i r c, .cellP i' r' c' _ => i == i' && r == r' && c == c'
  | a, b => a == b

/-- Interleave the fragments of `line.text.split(/\n/u)` with `br` elements:
the do-while loop of the text-line handler (main.js lines 280-283). -/
def brElt : Inline := .elt "br" [] [] []

def fragNodes : List String → List Inline
  | [] => []
  | [s] => [.textNode s]
  | s :: rest => .textNode s :: brElt :: fragNodes rest

/-- Class list of the combined style wrapper span (main.js lines 271-276). -/
def styleClasses (l : TextLine) : List String :=
  (if l.underline then ["underline"] else [])
    ++ (if l.strikeout then ["strikeout"] else [])
    ++ (if l.mono then ["monospace"] else [])

/-- The wrapper chain of the text-line handler (main.js lines 269-278): each
wrapper, when its flag is set, is appended as the sole child of the previous
one, so building from the innermost content out reproduces the appends. -/
def textWrap (l : TextLine) (inner : List Inline) : List Inline :=
  let s5 := if l.subtext then [Inline.elt "sub" [] [] inner] else inner
  let s4 := if l.supertext then [Inline.elt "sup" [] [] s5] else s5
  let s3 :=
    if l.underline || l.strikeout || l.mono then
      [Inline.elt "span" [] (styleClasses l) s4]
    else s4
  let s2 := if l.bold then [Inline.elt "strong" [] [] s3] else s3
  if l.italic then [Inline.elt "em" [] [] s2] else s2

/-- Push a cell onto the last row (`row.appendChild` when the existing last
`tr` is reused). -/
def pushLastRow : List (List Cell) → Cell → List (List Cell)
  | [], c => [[c]]
  | [row], c => [row ++ [c]]
  | row :: rows, c => row :: pushLastRow rows c

/-- The table part of the `D_CELL` destination handler (main.js lines 251-255)
applied to the table it located: count the existing `th`/`td` cells, open a
new `tr` when there is none yet or when `BigInt(cellCount) % BigInt(fltColumns)`
is zero, then append the new cell.  The modulo is only evaluated when a row
exists (`!row ||` short-circuits); evaluating it with `fltColumns = 0` raises
a `RangeError`.  `cellCount` is nonnegative, so the JS truncated remainder
equals `cellCount % |fltColumns|`. -/
def cellDirective (t : Table) (header : Bool) : Except RErr Table :=
  let cellCount := (t.rows.map List.length).sum
  let newCell : Cell := ⟨header, []⟩
  if t.rows.isEmpty then
    .ok { t with rows := t.rows ++ [[newCell]] }
  else if t.fltColumns == 0 then
    .error .range
  else if cellCount % t.fltColumns.natAbs == 0 then
    .ok { t with rows := t.rows ++ [[newCell]] }
  else
    .ok { t with rows := pushLastRow t.rows newCell }

/-- Clear `link` and `hint` when the line's reset flag is set (main.js line 168). -/
def applyReset (st : RState) (r : Bool) : RState :=
  if r then { st with link := none, hint := none } else st

/-- Build the attribute list of the image element: inline content wins, else
the pending blob as a data URI. -/
def mkImgSrc (t d : String) : String := "data:" ++ t ++ ";base64," ++ d

/-- One iteration of the render loop (main.js lines 167-285).  Errors carry
the state as of the throw, so that the mutations performed before a throw
remain observable. -/
def stepLine (st0 : RState) (line : Line) : Except (RErr × RState) RState :=
  match line with
  | .typed tl =>
    let st := applyReset st0 tl.reset
    match tl.kind with
    | .tSection align brk =>
      let done1 := if st.sect.kids.isEmpty then st.done else st.done ++ [.sec st.sect]
      let newSect : Sect := ⟨(match align with | some a => [alignClass a] | none => []), []⟩
      let done2 := if brk && done1.any isSecBody then done1 ++ [.hr] else done1
      .ok { st with done := done2, sect := newSect, link := none, dest := .body }
    | .tParagraph align =>
      match destEl st.dest st.sect with
      | .error e => .error (e, { st with link := none })
      | .ok (loc, s1) =>
        let pNew : Para := ⟨(match align with | some a => [alignClass a] | none => []), []⟩
        let s2 :=
          match loc with
          | .child _ => some { s1 with kids := s1.kids ++ [.par pNew] }
          | .asideP i _ =>
            (updIdx s1.kids i fun k =>
              match k with
              | .aside ks => some (.aside (ks ++ [.par pNew]))
              | _ => none).map fun kids => { s1 with kids := kids }
          | .cellSelf i r c | .cellP i r c _ =>
            (updIdx s1.kids i fun k =>
              match k with
              | .tbl t =>
                (updIdx t.rows r fun row =>
                  updIdx row c fun cell =>
                    some { cell with kids := cell.kids ++ [.par pNew] }).map
                  fun rows => .tbl { t with rows := rows }
              | _ => none).map fun kids => { s1 with kids := kids }
        match s2 with
        | none => .error (.typeErr, { st with link := none })
        | some s2 => .ok { st with sect := s2, link := none }
    | .tHint content => .ok { st with hint := some content }
    | .tLink content =>
      match destEl st.dest st.sect with
      | .error e => .error (e, st)
      | .ok (loc, s1) =>
        match containerLen s1 loc with
        | none => .error (.typeErr, st)
        | some n =>
          let withTitle := strTruthy st.hint
          let attrs :=
            [("href", content)]
              ++ (match st.hint with
                  | some h => if h != "" then [("title", h)] else []
                  | none => [])
          match appendAtLoc s1 loc (.elt "a" attrs [] []) with
          | none => .error (.typeErr, st)
          | some s2 =>
            .ok { st with sect := s2, link := some (loc, n),
                          hint := if withTitle then none else st.hint }
    | .tAnchor content =>
      match destEl st.dest st.sect with
      | .error e => .error (e, st)
      | .ok (loc, s1) =>
        match appendAtLoc s1 loc (.elt "a" [("name", content)] [] []) with
        | none => .error (.typeErr, st)
        | some s2 => .ok { st with sect := s2 }
    | .tBlob mediaType data => .ok { st with blob := some (mediaType, data) }
    | .tImage content =>
      match destEl st.dest st.sect with
      | .error e => .error (e, st)
      | .ok (loc, s1) =>
        match containerLen s1 loc with
        | none => .error (.typeErr, st)
        | some n =>
          match appendAtLoc s1 loc (.elt "img" [] [] []) with
          | none => .error (.typeErr, st)
          | some s2 =>
            let src :=
              match content with
              | some c => if c != "" then Except.ok c else
                  match st.blob with
                  | none => Except.error (RErr.flt "No image content available")
                  | some (t, d) => Except.ok (mkImgSrc t d)
              | none =>
                match st.blob with
                | none => Except.error (RErr.flt "No image content available")
                | some (t, d) => Except.ok (mkImgSrc t d)
            match src with
            | .error e => .error (e, { st with sect := s2 })
            | .ok v =>
              match setAttrAt s2 loc n ("src", v) with
              | none => .error (.typeErr, { st with sect := s2 })
              | some s3 =>
                match st.hint with
                | some h =>
                  if h != "" then
                    match setAttrAt s3 loc n ("title", h) with
                    | none => .error (.typeErr, { st with sect := s3 })
                    | some s4 => .ok { st with sect := s4, hint := none }
                  else .ok { st with sect := s3 }
                | none => .ok { st with sect := s3 }
    | .tTable content =>
      .ok { st with sect := { st.sect with kids := st.sect.kids ++ [.tbl ⟨content, []⟩] } }
    | .tDestination d header =>
      let st := { st with link := none }
      match d with
      | .note =>
        match destEl st.dest st.sect with
        | .error e => .error (e, st)
        | .ok (loc, s1) =>
          let n := st.noteIndex
          let fwd : Inline :=
            .elt "a"
              [("name", "flt-note-return-" ++ Nat.repr n), ("href", "#flt-note-" ++ Nat.repr n)]
              ["to-note"] [.textNode (Nat.repr n)]
          match appendAtLoc s1 loc fwd with
          | none => .error (.typeErr, st)
          | some s2 =>
            let bak : Inline :=
              .elt "a"
                [("name", "flt-note-" ++ Nat.repr n),
                 ("href", "#flt-note-return-" ++ Nat.repr n)]
                ["from-note"] []
            let s3 := { s2 with kids := s2.kids ++ [.aside [.inline bak, .par ⟨[], []⟩]] }
            .ok { st with sect := s3, noteIndex := n + 1, dest := .note }
      | .cell =>
        match lastIdxWhere isTblChild st.sect.kids with
        | none =>
          .error (.flt "Cannot set destination to D_CELL when no table is defined", st)
        | some i =>
          match st.sect.kids[i]? with
          | some (.tbl t) =>
            match cellDirective t header with
            | .error e => .error (e, st)
            | .ok t' =>
              match updIdx st.sect.kids i (fun _ => some (.tbl t')) with
              | none => .error (.typeErr, st)
              | some kids =>
                .ok { st with sect := { st.sect with kids := kids }, dest := .cell }
          | _ => .error (.typeErr, st)
      | .head =>
        .ok { st with done := st.done ++ [.sec st.sect], sect := ⟨[], []⟩, dest := .head }
      | .body => .ok { st with dest := .body }
  | .text l =>
    let st := applyReset st0 l.reset
    match destEl st.dest st.sect with
    | .error e => .error (e, st)
    | .ok (loc, s1) =>
      let adds := textWrap l (fragNodes (l.text.splitOn "\n"))
      let s2 :=
        match st.link with
        | some (lloc, n) =>
          if locContains loc lloc then appendIntoAnchor s1 lloc n adds
          else appendListAtLoc s1 loc adds
        | none => appendListAtLoc s1 loc adds
      match s2 with
      | none => .error (.typeErr, st)
      | some s2 => .ok { st with sect := s2 }

/-- Run the render loop over a line list. -/
def renderLines (st : RState) : List Line → Except (RErr × RState) RState
  | [] => .ok st
  | l :: ls =>
    match stepLine st l with
    | .error e => .error e
    | .ok st' => renderLines st' ls

/-- The initial render context (main.js lines 121-127): an empty section
appended to body (after the optional title `h1`), `noteIndex = 1`, no pending
link/hint/blob, destination `D_BODY`. -/
def initState (heading : Option String) : RState :=
  ⟨(match heading with | some t => [.h1 t] | none => []), ⟨[], []⟩, 1, none, none, none, .body⟩

/-- The children of `document.body` for a render state. -/
def bodyOf (st : RState) : List BodyChild := st.done ++ [.sec st.sect]

/-- The body tree produced by consuming the full line stream, before the
cleanup pass. -/
def renderBody (heading : Option String) (lines : List Line) :
    Except (RErr × RState) (List BodyChild) :=
  (renderLines (initState heading) lines).map bodyOf

/-!
The cleanup pass (main.js lines 288-290).  `querySelectorAll("section, p")`
takes a static snapshot in document order, i.e. pre-order, and the `forEach`
removes each listed node whose `hasChildNodes()` is false at the moment it is
visited.  Every section or paragraph is visited before any of its descendants,
and all earlier removals happen at earlier pre-order positions, hence outside
the visited node's subtree; a node with an originally empty child list has no
descendants, so no listed node loses an ancestor before being visited.  A node
is therefore removed exactly when its child list at the start of the pass is
empty.  Paragraph children are inline nodes and contain no section or
paragraph, so kept paragraphs keep their subtree unchanged.
-/

/-- Remove paragraphs with no child nodes from an aside's or a cell's child
list. -/
def cleanupMixed (l : List MixedChild) : List MixedChild :=
  l.filter fun c =>
    match c with
    | .par p => !p.kids.isEmpty
    | .inline _ => true

def cleanupCell (c : Cell) : Cell := { c with kids := cleanupMixed c.kids }

def cleanupTable (t : Table) : Table := { t with rows := t.rows.map (List.map cleanupCell) }

/-- Cleanup inside one section child: drop a paragraph that had no child
nodes, keep everything else, recursing into tables and asides. -/
def cleanupSectChild : SectChild → Option SectChild
  | .par p => if p.kids.isEmpty then none else some (.par p)
  | .h2 ks => some (.h2 ks)
  | .tbl t => some (.tbl (cleanupTable t))
  | .aside ks => some (.aside (cleanupMixed ks))

def cleanupSect (s : Sect) : Sect := { s with kids := s.kids.filterMap cleanupSectChild }

/-- Cleanup of one body child: drop a section whose child list was empty at
the start of the pass, recurse into kept sections, keep everything else. -/
def cleanupBodyChild : BodyChild → Option BodyChild
  | .sec s => if s.kids.isEmpty then none else some (.sec (cleanupSect s))
  | b => some b

/-- One run of the cleanup pass over the body children. -/
def cleanupBody (l : List BodyChild) : List BodyChild :=
  l.filterMap cleanupBodyChild

/-- The body part of `toHTMLDOM`: run the render loop over the line stream,
then apply the cleanup pass once. -/
def toHTMLDOM (heading : Option String) (lines : List Line) :
    Except (RErr × RState) (List BodyChild) :=
  (renderLines (initState heading) lines).map fun st => cleanupBody (bodyOf st)

/-- Head elements emitted by `applyMetadata`: the `title` element and
opengraph `meta` tags (property, content). -/
inductive HeadChild where
  | title (s : String)
  | meta (property content : String)
deriving DecidableEq

/-- The `join(", ")` applied to metadata value lists. -/
def joinDC (l : List String) : String := String.intercalate ", " l

/-- One term of the fixed term table of `applyMetadata` (main.js lines
319-331): look the term up, join merge-terms into one comma-separated value,
and emit one `og:`-prefixed meta tag per value.  The source guards with
`if (!value) continue`, but `getDC` yields an array, and an array is truthy
in JS even when empty, so the guard never skips. -/
def emitTerm (getDC : String → List String) (term ogName : String) (merge : Bool) :
    List HeadChild :=
  let value := getDC term
  let value' := if merge then [joinDC value] else value
  value'.map fun v => .meta ("og:" ++ ogName) v

/-- The `applyMetadata` renderer (main.js lines 302-332): nothing when the
DCMETA feature is off; otherwise a `title` element from the joined title
values when non-empty, one `og:type = article` tag, then the five terms of
the fixed term table in insertion order. -/
def applyMetadata (dcmeta : Bool) (getDC : String → List String) : List HeadChild :=
  if !dcmeta then []
  else
    (let title := joinDC (getDC "title")
     if title != "" then [HeadChild.title title] else [])
      ++ [HeadChild.meta "og:type" "article"]
      ++ emitTerm getDC "title" "title" true
      ++ emitTerm getDC "description" "description" true
      ++ emitTerm getDC "creator" "article:author" false
      ++ emitTerm getDC "subject" "article:tag" false
      ++ emitTerm getDC "date" "article:published_time" false

/-- The error component of a failed render, if any. -/
def errOf : Except (RErr × RState) α → Option RErr
  | .error (e, _) => some e
  | .ok _ => none

/-- Whether a render completed without throwing. -/
def okRun : Except (RErr × RState) α → Bool
  | .ok _ => true
  | .error _ => false

/-! Idempotence properties of the cleanup layers. -/

theorem cleanupMixed_idem (l : List MixedChild) :
    cleanupMixed (cleanupMixed l) = cleanupMixed l := by
  induction l with
  | nil => rfl
  | cons c t ih =>
    cases c with
    | inline v => simp_all [cleanupMixed, List.filter_cons]
    | par p =>
      by_cases h : p.kids = [] <;>
        simp_all [cleanupMixed, List.filter_cons, h]

theorem cleanupCell_idem (c : Cell) : cleanupCell (cleanupCell c) = cleanupCell c := by
  simp [cleanupCell, cleanupMixed_idem]

theorem cleanupCell_comp : cleanupCell ∘ cleanupCell = cleanupCell :=
  funext cleanupCell_idem

theorem mapCell_comp :
    List.map cleanupCell ∘ List.map cleanupCell = List.map cleanupCell := by
  funext row
  simp [List.map_map, cleanupCell_comp]

theorem cleanupTable_idem (t : Table) : cleanupTable (cleanupTable t) = cleanupTable t := by
  simp [cleanupTable, List.map_map, mapCell_comp]
  exact fun a _ b _ => cleanupCell_idem b

theorem cleanupSectChild_bind (a : SectChild) :
    (cleanupSectChild a).bind cleanupSectChild = cleanupSectChild a := by
  cases a with
  | par p => by_cases h : p.kids = [] <;> simp [cleanupSectChild, h]
  | h2 ks => simp [cleanupSectChild]
  | tbl t => simp [cleanupSectChild, cleanupTable_idem]
  | aside ks => simp [cleanupSectChild, cleanupMixed_idem]

theorem cleanupSect_idem (s : Sect) : cleanupSect (cleanupSect s) = cleanupSect s := by
  simp only [cleanupSect, List.filterMap_filterMap]
  have hf : (fun a => (cleanupSectChild a).bind cleanupSectChild) = cleanupSectChild :=
    funext cleanupSectChild_bind
  rw [hf]

theorem cleanupBodyChild_bind2 (b : BodyChild) :
    ((cleanupBodyChild b).bind cleanupBodyChild).bind cleanupBodyChild
      = (cleanupBodyChild b).bind cleanupBodyChild := by
  cases b with
  | h1 t => simp [cleanupBodyChild]
  | hr => simp [cleanupBodyChild]
  | sec s =>
    by_cases h : s.kids = []
    · simp [cleanupBodyChild, h]
    · by_cases h2 : (cleanupSect s).kids = []
      · simp [cleanupBodyChild, h, h2]
      · simp [cleanupBodyChild, h, h2, cleanupSect_idem]

/-- C1, counterexample.  Rendering the single-line stream `[T_PARAGRAPH]`
produces a section holding two childless paragraphs; one cleanup pass removes
the paragraphs but, having already examined the section while it still had
children, keeps the now-empty section, while a second pass removes it: the
cleanup pass applied twice differs from the pass applied once on this tree
produced by consuming a full line stream. -/
theorem c1_cleanup_not_idempotent :
    renderBody none [Line.typed ⟨.tParagraph none, false⟩]
        = .ok [BodyChild.sec ⟨[], [.par ⟨[], []⟩, .par ⟨[], []⟩]⟩]
      ∧ cleanupBody (cleanupBody [BodyChild.sec ⟨[], [.par ⟨[], []⟩, .par ⟨[], []⟩]⟩])
          ≠ cleanupBody [BodyChild.sec ⟨[], [.par ⟨[], []⟩, .par ⟨[], []⟩]⟩] :=
  ⟨rfl, by decide⟩

/-- C1, amended.  The cleanup pass is not idempotent: it removes exactly the
sections and paragraphs whose child list was empty when the pass began, and a
section is examined before its own paragraphs, so a section emptied by the
removal of its last childless paragraph survives the pass and is only removed
by a second pass.  Two passes reach a fixpoint: on every body tree, running
cleanup three times equals running it twice. -/
theorem c1_cleanup_twice_fixpoint (l : List BodyChild) :
    cleanupBody (cleanupBody (cleanupBody l)) = cleanupBody (cleanupBody l) := by
  simp only [cleanupBody, List.filterMap_filterMap]
  have hf : (fun b => ((cleanupBodyChild b).bind cleanupBodyChild).bind cleanupBodyChild)
      = fun b => (cleanupBodyChild b).bind cleanupBodyChild :=
    funext cleanupBodyChild_bind2
  rw [hf]

/-- C2, counterexample.  After `[BLOB, IMAGE(no content), IMAGE(no content)]`
the render succeeds: the first IMAGE consumes the pending blob but the blob
field still holds the payload afterwards, and the second IMAGE, with no
intervening BLOB line, reuses the very same payload for its data URI. -/
theorem c2_blob_not_cleared :
    renderLines (initState none)
        [.typed ⟨.tBlob "image/png" "AAAA", false⟩,
         .typed ⟨.tImage none, false⟩, .typed ⟨.tImage none, false⟩]
      = .ok { done := [],
              sect := ⟨[], [.par ⟨[], [.elt "img" [("src", "data:image/png;base64,AAAA")] [] [],
                                       .elt "img" [("src", "data:image/png;base64,AAAA")] [] []]⟩]⟩,
              noteIndex := 1, link := none, hint := none,
              blob := some ("image/png", "AAAA"), dest := .body } := by
  rfl

theorem applyReset_blob (st : RState) (r : Bool) : (applyReset st r).blob = st.blob := by
  cases r <;> simp [applyReset]

/-- C2, amended.  The pending blob is not single-use: the `T_IMAGE` handler
never writes the blob field, so processing an IMAGE line without inline
content leaves the blob of the render context unchanged, and a later IMAGE
line without inline content and with no intervening BLOB line reuses the same
payload. -/
theorem c2_image_preserves_blob (st st' : RState) (r : Bool)
    (h : stepLine st (.typed ⟨.tImage none, r⟩) = .ok st') :
    st'.blob = st.blob := by
  simp only [stepLine] at h
  repeat' split at h
  all_goals first
    | exact Except.noConfusion h
    | (injection h with h; subst h; exact applyReset_blob st r)

theorem c2_image_preserves_blob_witness :
    stepLine (⟨[], ⟨[], []⟩, 1, none, none, some ("image/png", "AAAA"), .body⟩ : RState)
        (.typed ⟨.tImage none, false⟩)
      = .ok (⟨[], ⟨[], [.par ⟨[], [.elt "img" [("src", "data:image/png;base64,AAAA")] [] []]⟩]⟩,
              1, none, none, some ("image/png", "AAAA"), .body⟩ : RState)
    ∧ RState.blob
        (⟨[], ⟨[], [.par ⟨[], [.elt "img" [("src", "data:image/png;base64,AAAA")] [] []]⟩]⟩,
          1, none, none, some ("image/png", "AAAA"), .body⟩ : RState)
        = some ("image/png", "AAAA") := by
  refine ⟨rfl, ?_⟩
  exact (c2_image_preserves_blob
    ⟨[], ⟨[], []⟩, 1, none, none, some ("image/png", "AAAA"), .body⟩
    ⟨[], ⟨[], [.par ⟨[], [.elt "img" [("src", "data:image/png;base64,AAAA")] [] []]⟩]⟩,
      1, none, none, some ("image/png", "AAAA"), .body⟩ false rfl).trans rfl

/-- C3, counterexample.  On the stream `[TABLE(columns = 0), CELL, CELL]` the
render fails with the BigInt division-by-zero `RangeError` rather than the
"rendering error" kind, while the stream `[TABLE(columns = 0), CELL]` is
accepted without any check: the first CELL-destination directive on a
zero-column table is not rejected at all (the missing-row test short-circuits
the modulo), and a modulo by zero is performed on the next one. -/
theorem c3_zero_columns_not_rejected :
    errOf (renderLines (initState none)
        [.typed ⟨.tTable 0, false⟩, .typed ⟨.tDestination .cell false, false⟩,
         .typed ⟨.tDestination .cell false, false⟩]) = some .range
    ∧ okRun (renderLines (initState none)
        [.typed ⟨.tTable 0, false⟩, .typed ⟨.tDestination .cell false, false⟩]) = true :=
  ⟨rfl, rfl⟩

/-- C3, amended.  A table declared with column count 0 is not treated as a
caller error: the first subsequent CELL-destination directive succeeds with no
zero check, because the absence of a row short-circuits the modulo, and every
later CELL-destination directive evaluates `cellCount mod 0`, aborting the
pass with a division-by-zero `RangeError` — a different error kind than the
"rendering error" (`FLTError`) one — regardless of what follows in the
stream. -/
theorem c3_zero_columns_behaviour (rest : List Line) :
    okRun (renderLines (initState none)
        [.typed ⟨.tTable 0, false⟩, .typed ⟨.tDestination .cell false, false⟩]) = true
    ∧ errOf (renderLines (initState none)
        ([.typed ⟨.tTable 0, false⟩, .typed ⟨.tDestination .cell false, false⟩,
          .typed ⟨.tDestination .cell false, false⟩] ++ rest)) = some .range :=
  ⟨rfl, rfl⟩

/-- C4, counterexample.  With a metadata source on which every term lookup
returns the empty list, the applier still emits a tag for the merge term
"title": the `if (!value)` guard never fires on an (always truthy) array, the
empty list joins to the empty string, and a `og:title` tag with empty content
is emitted even though the term is absent. -/
theorem c4_absent_merge_term_emits :
    (fun _ => ([] : List String)) "title" = []
    ∧ HeadChild.meta "og:title" "" ∈ applyMetadata true (fun _ => []) :=
  ⟨rfl, by decide⟩

theorem mem_emitTerm (g : String → List String) (term ogName : String) (m : Bool)
    (x : HeadChild) (hx : x ∈ emitTerm g term ogName m) :
    ∃ v, x = HeadChild.meta ("og:" ++ ogName) v := by
  simp only [emitTerm, List.mem_map] at hx
  obtain ⟨v, _, hv⟩ := hx
  exact ⟨v, hv.symm⟩

theorem not_mem_emitTerm (g : String → List String) (term ogName : String) (m : Bool)
    (pc v : String) (hne : "og:" ++ ogName ≠ pc) :
    HeadChild.meta pc v ∉ emitTerm g term ogName m := by
  intro hm
  obtain ⟨w, hw⟩ := mem_emitTerm g term ogName m _ hm
  injection hw with h1 _
  exact hne h1.symm

theorem count_emitTerm_ne (g : String → List String) (term ogName : String) (m : Bool)
    (pc v : String) (hne : "og:" ++ ogName ≠ pc) :
    (emitTerm g term ogName m).count (HeadChild.meta pc v) = 0 := by
  rw [List.count_eq_zero]
  exact not_mem_emitTerm g term ogName m pc v hne

theorem not_mem_titleChunk (pc v s : String) (c : Bool) :
    HeadChild.meta pc v ∉ (if c = true then [HeadChild.title s] else []) := by
  cases c <;> simp

theorem count_titleChunk (pc v s : String) (c : Bool) :
    (if c = true then [HeadChild.title s] else []).count (HeadChild.meta pc v) = 0 := by
  rw [List.count_eq_zero]
  exact not_mem_titleChunk pc v s c

/-- C4, amended.  For the no-merge terms (creator, subject, date) an absent
term — empty lookup — emits nothing; but for the merge terms (title,
description) an absent term still emits exactly one tag whose content is the
empty string, since the empty list is joined to `""` and the `if (!value)`
guard never fires on an array value. -/
theorem c4_absent_terms (g : String → List String) :
    (g "creator" = [] → ∀ v, HeadChild.meta "og:article:author" v ∉ applyMetadata true g)
    ∧ (g "subject" = [] → ∀ v, HeadChild.meta "og:article:tag" v ∉ applyMetadata true g)
    ∧ (g "date" = [] →
        ∀ v, HeadChild.meta "og:article:published_time" v ∉ applyMetadata true g)
    ∧ (g "title" = [] → (applyMetadata true g).count (HeadChild.meta "og:title" "") = 1)
    ∧ (g "description" = [] →
        (applyMetadata true g).count (HeadChild.meta "og:description" "") = 1) := by
  refine ⟨?_, ?_, ?_, ?_, ?_⟩
  · intro h v hmem
    simp only [applyMetadata, Bool.not_true, Bool.false_eq_true, if_false,
      List.mem_append] at hmem
    rcases hmem with ((((((hm | hm) | hm) | hm) | hm) | hm) | hm)
    · exact not_mem_titleChunk _ _ _ _ hm
    · simp at hm
    · exact not_mem_emitTerm g "title" "title" true _ _ (by decide) hm
    · exact not_mem_emitTerm g "description" "description" true _ _ (by decide) hm
    · simp [emitTerm, h] at hm
    · exact not_mem_emitTerm g "subject" "article:tag" false _ _ (by decide) hm
    · exact not_mem_emitTerm g "date" "article:published_time" false _ _ (by decide) hm
  · intro h v hmem
    simp only [applyMetadata, Bool.not_true, Bool.false_eq_true, if_false,
      List.mem_append] at hmem
    rcases hmem with ((((((hm | hm) | hm) | hm) | hm) | hm) | hm)
    · exact not_mem_titleChunk _ _ _ _ hm
    · simp at hm
    · exact not_mem_emitTerm g "title" "title" true _ _ (by decide) hm
    · exact not_mem_emitTerm g "description" "description" true _ _ (by decide) hm
    · exact not_mem_emitTerm g "creator" "article:author" false _ _ (by decide) hm
    · simp [emitTerm, h] at hm
    · exact not_mem_emitTerm g "date" "article:published_time" false _ _ (by decide) hm
  · intro h v hmem
    simp only [applyMetadata, Bool.not_true, Bool.false_eq_true, if_false,
      List.mem_append] at hmem
    rcases hmem with ((((((hm | hm) | hm) | hm) | hm) | hm) | hm)
    · exact not_mem_titleChunk _ _ _ _ hm
    · simp at hm
    · exact not_mem_emitTerm g "title" "title" true _ _ (by decide) hm
    · exact not_mem_emitTerm g "description" "description" true _ _ (by decide) hm
    · exact not_mem_emitTerm g "creator" "article:author" false _ _ (by decide) hm
    · exact not_mem_emitTerm g "subject" "article:tag" false _ _ (by decide) hm
    · simp [emitTerm, h] at hm
  · intro h
    simp only [applyMetadata, Bool.not_true, Bool.false_eq_true, if_false,
      List.count_append]
    rw [count_titleChunk]
    rw [count_emitTerm_ne g "description" "description" true _ _ (by decide)]
    rw [count_emitTerm_ne g "creator" "article:author" false _ _ (by decide)]
    rw [count_emitTerm_ne g "subject" "article:tag" false _ _ (by decide)]
    rw [count_emitTerm_ne g "date" "article:published_time" false _ _ (by decide)]
    simp [emitTerm, h, joinDC]
    decide
  · intro h
    simp only [applyMetadata, Bool.not_true, Bool.false_eq_true, if_false,
      List.count_append]
    rw [count_titleChunk]
    rw [count_emitTerm_ne g "title" "title" true _ _ (by decide)]
    rw [count_emitTerm_ne g "creator" "article:author" false _ _ (by decide)]
    rw [count_emitTerm_ne g "subject" "article:tag" false _ _ (by decide)]
    rw [count_emitTerm_ne g "date" "article:published_time" false _ _ (by decide)]
    simp [emitTerm, h, joinDC]
    decide

/-- C4, witness for the amended statement at the all-absent metadata source. -/
theorem c4_absent_terms_witness :
    (∀ v, HeadChild.meta "og:article:author" v ∉ applyMetadata true (fun _ => []))
    ∧ (applyMetadata true (fun _ => [])).count (HeadChild.meta "og:title" "") = 1 := by
  have h := c4_absent_terms (fun _ => [])
  exact ⟨h.1 rfl, h.2.2.2.1 rfl⟩

/-- Spec-side reference for the nesting-order claim: the ordered wrapper list
"italic → bold → combined style wrapper → superscript → subscript", each
wrapper present exactly when its flag is set. -/
def specWrapperList (l : TextLine) : List (List Inline → Inline) :=
  (if l.italic then [fun ks => Inline.elt "em" [] [] ks] else [])
    ++ (if l.bold then [fun ks => Inline.elt "strong" [] [] ks] else [])
    ++ (if l.underline || l.strikeout || l.mono then
          [fun ks => Inline.elt "span" [] (styleClasses l) ks] else [])
    ++ (if l.supertext then [fun ks => Inline.elt "sup" [] [] ks] else [])
    ++ (if l.subtext then [fun ks => Inline.elt "sub" [] [] ks] else [])

/-- Spec-side reference: nest each wrapper of the list inside the previous
one, innermost content last. -/
def specNest (ws : List (List Inline → Inline)) (inner : List Inline) : List Inline :=
  match ws with
  | [] => inner
  | w :: rest => [w (specNest rest inner)]

/-- C8.  The wrapping elements built for a text line always nest in the fixed
order em, then strong, then one combined span carrying the underline /
strikeout / monospace classes, then sup, then sub, each wrapper present
exactly when its flag is set — the handler's sequential appends agree with
the spec's ordered wrapper list for every combination of flags (there is no
order in which flags could be "given": they are independent booleans of the
line); in particular italic+bold+underline+supertext always yields
em > strong > span.underline > sup. -/
theorem c8_nesting_order (l : TextLine) (inner : List Inline) :
    textWrap l inner = specNest (specWrapperList l) inner
    ∧ ∀ txt rst,
        textWrap ⟨txt, true, true, true, false, false, true, false, rst⟩ inner
          = [Inline.elt "em" [] []
              [Inline.elt "strong" [] []
                [Inline.elt "span" [] ["underline"]
                  [Inline.elt "sup" [] [] inner]]]] := by
  constructor
  · obtain ⟨txt, i, b, u, s, m, sup, sub, r⟩ := l
    cases i <;> cases b <;> cases u <;> cases s <;> cases m <;> cases sup <;> cases sub <;> rfl
  · intro txt rst
    rfl

/-! Table layout: closed form of the rows after k sequential CELL-destination
directives on a table with column count C. -/

/-- A data cell as created by a CELL-destination directive with `header`
false. -/
def tdCell : Cell := ⟨false, []⟩

/-- Closed form of the row list of a table with column count `C` after `k`
sequential CELL-destination directives: `k / C` full rows followed by one
partial row of `k % C` cells when `C` does not divide `k`. -/
def tableRowsAfter (C k : Nat) : List (List Cell) :=
  List.replicate (k / C) (List.replicate C tdCell)
    ++ (if k % C = 0 then [] else [List.replicate (k % C) tdCell])

theorem tableRowsAfter_zero (C : Nat) : tableRowsAfter C 0 = [] := by
  simp [tableRowsAfter]

theorem sum_tableRowsAfter (C k : Nat) (_hC : 0 < C) :
    ((tableRowsAfter C k).map List.length).sum = k := by
  have hqr := Nat.div_add_mod' k C
  by_cases hr : k % C = 0
  · simp only [tableRowsAfter, hr, if_pos, List.append_nil, List.map_replicate,
      List.length_replicate, List.sum_replicate, smul_eq_mul]
    rw [hr, Nat.add_zero] at hqr
    exact hqr
  · simp only [tableRowsAfter, hr, if_neg, List.map_append, List.map_replicate,
      List.length_replicate, List.sum_append, List.sum_replicate, smul_eq_mul,
      List.map_cons, List.map_nil, List.sum_cons, List.sum_nil, Nat.add_zero,
      ite_false]
    exact hqr

theorem pushLastRow_concat :
    ∀ (A : List (List Cell)) (r : List Cell) (c : Cell),
      pushLastRow (A ++ [r]) c = A ++ [r ++ [c]]
  | [], _, _ => rfl
  | [_], _, _ => rfl
  | a :: b :: B, r, c => by
    show a :: pushLastRow ((b :: B) ++ [r]) c = a :: ((b :: B) ++ [r ++ [c]])
    rw [pushLastRow_concat (b :: B) r c]

theorem tableRowsAfter_nonempty (C k : Nat) (hC : 0 < C) (hk : 0 < k) :
    tableRowsAfter C k ≠ [] := by
  unfold tableRowsAfter
  by_cases hr : k % C = 0
  · have hq : 0 < k / C := Nat.div_pos (Nat.le_of_dvd hk (Nat.dvd_of_mod_eq_zero hr)) hC
    simp [hr]
    omega
  · simp [hr]

theorem tableRowsAfter_step_full (C k : Nat) (hC : 0 < C) (hr : (k + 1) % C ≠ 0)
    (hr0 : k % C = 0) :
    tableRowsAfter C (k + 1)
      = List.replicate (k / C) (List.replicate C tdCell) ++ [[tdCell]] := by
  obtain ⟨q, hq⟩ : ∃ q, k = C * q := ⟨k / C, (Nat.div_mul_cancel (Nat.dvd_of_mod_eq_zero hr0)).symm.trans (Nat.mul_comm _ _)⟩
  have hC1 : C ≠ 1 := by
    intro h
    exact hr (h ▸ Nat.mod_one (k + 1))
  have hmod : (k + 1) % C = 1 := by
    rw [hq, Nat.mul_add_mod]
    exact Nat.mod_eq_of_lt (by omega)
  have hdiv1 : (k + 1) / C = q := by
    have hz : 1 / C = 0 := Nat.div_eq_of_lt (by omega)
    rw [hq, Nat.mul_add_div hC, hz]
    rfl
  have hdiv : k / C = q := by rw [hq]; exact Nat.mul_div_cancel_left q hC
  simp [tableRowsAfter, hmod, hdiv1, hdiv]

theorem tableRowsAfter_one (C : Nat) (hC : 0 < C) : tableRowsAfter C 1 = [[tdCell]] := by
  by_cases hC1 : C = 1
  · subst hC1; rfl
  · have h1 : 1 % C = 1 := Nat.mod_eq_of_lt (by omega)
    simp [tableRowsAfter, h1, Nat.div_eq_of_lt (show 1 < C by omega)]

/-- One CELL-destination directive on a table holding the closed-form rows
advances the closed form by one cell. -/
theorem cellDirective_closed (C k : Nat) (hC : 0 < C) :
    cellDirective ⟨(C : Int), tableRowsAfter C k⟩ false
      = .ok ⟨(C : Int), tableRowsAfter C (k + 1)⟩ := by
  have hrlt : k % C < C := Nat.mod_lt k hC
  by_cases hk : k = 0
  · subst hk
    rw [tableRowsAfter_zero, tableRowsAfter_one C hC]
    rfl
  · have hne : (tableRowsAfter C k).isEmpty = false := by
      obtain ⟨a, l', hl⟩ :=
        List.exists_cons_of_ne_nil (tableRowsAfter_nonempty C k hC (Nat.pos_of_ne_zero hk))
      rw [hl]
      rfl
    have hC0 : ((C : Int) == 0) = false := by
      rw [beq_eq_false_iff_ne]
      exact Int.natCast_ne_zero.mpr (by omega)
    have habs : (Int.natAbs (C : Int)) = C := Int.natAbs_ofNat C
    unfold cellDirective
    rw [hne, hC0]
    simp only [Bool.false_eq_true, if_false, sum_tableRowsAfter C k hC, habs]
    by_cases hr : k % C = 0
    · rw [if_pos (by simp [hr])]
      by_cases hC1 : C = 1
      · subst hC1
        simp [tableRowsAfter, Nat.mod_one, Nat.div_one, List.replicate_succ', tdCell]
      · have hr1 : (k + 1) % C ≠ 0 := by
          obtain ⟨q, hq⟩ : ∃ q, k = C * q :=
            ⟨k / C, (Nat.div_mul_cancel (Nat.dvd_of_mod_eq_zero hr)).symm.trans (Nat.mul_comm _ _)⟩
          rw [hq, Nat.mul_add_mod, Nat.mod_eq_of_lt (show 1 < C by omega)]
          omega
        rw [tableRowsAfter_step_full C k hC hr1 hr]
        simp [tableRowsAfter, hr, tdCell]
    · rw [if_neg (by simp [hr])]
      set q := k / C with hqdef
      set r := k % C with hrdef
      have hqr' : C * q + r = k := Nat.div_add_mod k C
      have hrpos : 0 < r := Nat.pos_of_ne_zero hr
      rw [show tableRowsAfter C k
          = List.replicate q (List.replicate C tdCell) ++ [List.replicate r tdCell] from by
        simp [tableRowsAfter, hrdef, hqdef, hr]]
      rw [pushLastRow_concat]
      rw [show ({ header := false, kids := [] } : Cell) = tdCell from rfl]
      by_cases hfull : r + 1 = C
      · have hk1 : k + 1 = C * (q + 1) := by
          rw [Nat.mul_add, Nat.mul_one]
          omega
        have hmod : (k + 1) % C = 0 := by
          rw [hk1]; exact Nat.mul_mod_right C (q + 1)
        have hdiv1 : (k + 1) / C = q + 1 := by
          rw [hk1]; exact Nat.mul_div_cancel_left (q + 1) hC
        rw [show List.replicate r tdCell ++ [tdCell] = List.replicate C tdCell from by
          rw [← List.replicate_succ', hfull]]
        simp [tableRowsAfter, hmod, hdiv1, List.replicate_succ']
      · have hk1 : k + 1 = C * q + (r + 1) := by omega
        have hmod : (k + 1) % C = r + 1 := by
          rw [hk1, Nat.mul_add_mod]
          exact Nat.mod_eq_of_lt (by omega)
        have hdiv1 : (k + 1) / C = q := by
          have hz : (r + 1) / C = 0 := Nat.div_eq_of_lt (by omega)
          rw [hk1, Nat.mul_add_div hC, hz]
          rfl
        rw [show List.replicate r tdCell ++ [tdCell] = List.replicate (r + 1) tdCell from by
          rw [List.replicate_succ']]
        simp [tableRowsAfter, hmod, hdiv1]

/-- Unfold one successful step of the render loop. -/
theorem renderLines_cons_ok {st st' : RState} {l : Line} {ls : List Line}
    (h : stepLine st l = .ok st') : renderLines st (l :: ls) = renderLines st' ls := by
  rw [renderLines, h]

/-- Reduction of one CELL-destination step on a state whose current section
holds exactly one table. -/
theorem stepLine_cellLine (done : List BodyChild) (cls : List String) (n : Nat)
    (lk : Option (Loc × Nat)) (h : Option String) (b : Option (String × String))
    (d : Dest) (t t' : Table) (hcd : cellDirective t false = .ok t') :
    stepLine ⟨done, ⟨cls, [.tbl t]⟩, n, lk, h, b, d⟩
        (.typed ⟨.tDestination .cell false, false⟩)
      = .ok ⟨done, ⟨cls, [.tbl t']⟩, n, none, h, b, .cell⟩ := by
  simp [stepLine, applyReset, lastIdxWhere, isTblChild, updIdx, hcd]

/-- Folding K+1 CELL-destination directives over a section holding one
closed-form table advances the closed form by K+1 cells and leaves the
destination at `D_CELL`. -/
theorem renderLines_cells (C : Nat) (hC : 0 < C) :
    ∀ (K k0 : Nat) (done : List BodyChild) (cls : List String) (n : Nat)
      (lk : Option (Loc × Nat)) (h : Option String) (b : Option (String × String))
      (d : Dest),
    renderLines ⟨done, ⟨cls, [.tbl ⟨(C : Int), tableRowsAfter C k0⟩]⟩, n, lk, h, b, d⟩
        (List.replicate (K + 1) (.typed ⟨.tDestination .cell false, false⟩))
      = .ok ⟨done, ⟨cls, [.tbl ⟨(C : Int), tableRowsAfter C (k0 + K + 1)⟩]⟩,
             n, none, h, b, .cell⟩ := by
  intro K
  induction K with
  | zero =>
    intro k0 done cls n lk h b d
    rw [List.replicate_one,
      renderLines_cons_ok (stepLine_cellLine done cls n lk h b d _ _
        (cellDirective_closed C k0 hC))]
    rfl
  | succ K ih =>
    intro k0 done cls n lk h b d
    rw [List.replicate_succ,
      renderLines_cons_ok (stepLine_cellLine done cls n lk h b d _ _
        (cellDirective_closed C k0 hC))]
    rw [show k0 + (K + 1) + 1 = (k0 + 1) + K + 1 by omega]
    exact ih (k0 + 1) done cls n none h b .cell

/-- C5.  For a table declared with column count C >= 1 followed by K >= 1
sequential CELL-destination directives, the render yields one table whose
rows match the closed form: ceil(K / C) rows, every row of exactly C cells
except possibly the last, which has K mod C cells (or C when C divides K). -/
theorem c5_row_wrapping (C K : Nat) (hC : 1 ≤ C) (hK : 1 ≤ K) :
    (renderLines (initState none)
        (.typed ⟨.tTable (C : Int), false⟩
          :: List.replicate K (.typed ⟨.tDestination .cell false, false⟩))).map
        (fun st => st.sect.kids)
      = .ok [.tbl ⟨(C : Int), tableRowsAfter C K⟩]
    ∧ (tableRowsAfter C K).length = (K + C - 1) / C
    ∧ (∀ row ∈ (tableRowsAfter C K).dropLast, row.length = C)
    ∧ (tableRowsAfter C K).getLast?.map List.length
        = some (if K % C = 0 then C else K % C) := by
  obtain ⟨Kp, rfl⟩ : ∃ Kp, K = Kp + 1 := ⟨K - 1, by omega⟩
  have hrlt : (Kp + 1) % C < C := Nat.mod_lt _ hC
  refine ⟨?_, ?_, ?_, ?_⟩
  · rw [renderLines_cons_ok (show stepLine (initState none)
          (.typed ⟨.tTable (C : Int), false⟩)
        = .ok ⟨[], ⟨[], [.tbl ⟨(C : Int), tableRowsAfter C 0⟩]⟩,
               1, none, none, none, .body⟩ from by
      rw [tableRowsAfter_zero]; rfl)]
    rw [renderLines_cells C hC Kp 0 [] [] 1 none none none .body]
    rw [Nat.zero_add]
    rfl
  · unfold tableRowsAfter
    by_cases hr : (Kp + 1) % C = 0
    · have hq : 0 < (Kp + 1) / C :=
        Nat.div_pos (Nat.le_of_dvd (by omega) (Nat.dvd_of_mod_eq_zero hr)) hC
      have hd : (Kp + C) / C = (Kp + 1) / C := by
        obtain ⟨q, hqe⟩ : ∃ q, Kp + 1 = C * q :=
          ⟨(Kp + 1) / C,
            ((Nat.div_mul_cancel (Nat.dvd_of_mod_eq_zero hr)).symm.trans (Nat.mul_comm _ _))⟩
        have h1 : Kp + C = C * q + (C - 1) := by omega
        have h2 : (C - 1) / C = 0 := Nat.div_eq_of_lt (by omega)
        rw [h1, Nat.mul_add_div hC, h2, hqe, Nat.mul_div_cancel_left q hC]
        rfl
      simp [hr, hd]
    · have hd : (Kp + C) / C = (Kp + 1) / C + 1 := by
        have hqr' : C * ((Kp + 1) / C) + (Kp + 1) % C = Kp + 1 := Nat.div_add_mod _ _
        have h1 : Kp + C = C * ((Kp + 1) / C + 1) + ((Kp + 1) % C - 1) := by
          rw [Nat.mul_add, Nat.mul_one]
          omega
        have h2 : ((Kp + 1) % C - 1) / C = 0 := Nat.div_eq_of_lt (by omega)
        rw [h1, Nat.mul_add_div hC, h2]
      simp [hr, hd]
  · unfold tableRowsAfter
    by_cases hr : (Kp + 1) % C = 0
    · have hq : 0 < (Kp + 1) / C :=
        Nat.div_pos (Nat.le_of_dvd (by omega) (Nat.dvd_of_mod_eq_zero hr)) hC
      obtain ⟨qp, hqp⟩ : ∃ qp, (Kp + 1) / C = qp + 1 := ⟨(Kp + 1) / C - 1, by omega⟩
      intro row hrow
      simp only [hr, if_pos, List.append_nil, hqp, List.replicate_succ',
        List.dropLast_concat] at hrow
      rw [List.eq_of_mem_replicate hrow]
      exact List.length_replicate C tdCell
    · intro row hrow
      simp only [hr, if_neg, ite_false, List.dropLast_concat] at hrow
      rw [List.eq_of_mem_replicate hrow]
      exact List.length_replicate C tdCell
  · unfold tableRowsAfter
    by_cases hr : (Kp + 1) % C = 0
    · have hq : 0 < (Kp + 1) / C :=
        Nat.div_pos (Nat.le_of_dvd (by omega) (Nat.dvd_of_mod_eq_zero hr)) hC
      obtain ⟨qp, hqp⟩ : ∃ qp, (Kp + 1) / C = qp + 1 := ⟨(Kp + 1) / C - 1, by omega⟩
      simp [hr, hqp, List.replicate_succ', List.getLast?_concat]
    · simp [hr, List.getLast?_concat]

/-- C5, witness at C = 2, K = 3. -/
theorem c5_row_wrapping_witness :
    (renderLines (initState none)
        (.typed ⟨.tTable ((2 : Nat) : Int), false⟩
          :: List.replicate 3 (.typed ⟨.tDestination .cell false, false⟩))).map
        (fun st => st.sect.kids)
      = .ok [.tbl ⟨((2 : Nat) : Int), tableRowsAfter 2 3⟩]
    ∧ (tableRowsAfter 2 3).length = (3 + 2 - 1) / 2
    ∧ (∀ row ∈ (tableRowsAfter 2 3).dropLast, row.length = 2)
    ∧ (tableRowsAfter 2 3).getLast?.map List.length
        = some (if 3 % 2 = 0 then 2 else 3 % 2) :=
  c5_row_wrapping 2 3 (by decide) (by decide)

/-- Whether a line is a DESTINATION control line. -/
def isDestLine : Line → Bool
  | .typed tl =>
    match tl.kind with
    | .tDestination _ _ => true
    | _ => false
  | .text _ => false

theorem applyReset_dest (st : RState) (r : Bool) : (applyReset st r).dest = st.dest := by
  cases r <;> rfl

theorem applyReset_done (st : RState) (r : Bool) : (applyReset st r).done = st.done := by
  cases r <;> rfl

theorem applyReset_noteIndex (st : RState) (r : Bool) :
    (applyReset st r).noteIndex = st.noteIndex := by
  cases r <;> rfl

/-- Every handler except the DESTINATION one either leaves the destination
unchanged or (the SECTION handler) resets it to `D_BODY`. -/
theorem stepLine_nondest_dest (st st' : RState) (l : Line)
    (hl : isDestLine l = false) (hd : st.dest = .body)
    (h : stepLine st l = .ok st') : st'.dest = .body := by
  cases l with
  | text tl =>
    simp only [stepLine] at h
    repeat' split at h
    all_goals first
      | exact Except.noConfusion h
      | (injection h with h; subst h; exact (applyReset_dest st tl.reset).trans hd)
  | typed tl =>
    obtain ⟨k, r⟩ := tl
    cases k with
    | tDestination d hdr => simp [isDestLine] at hl
    | tSection align brk =>
      simp only [stepLine] at h
      injection h with h
      subst h
      rfl
    | _ =>
      simp only [stepLine] at h
      repeat' split at h
      all_goals first
        | exact Except.noConfusion h
        | (injection h with h; subst h; exact (applyReset_dest st r).trans hd)

/-- The destination state over a prefix of lines with no DESTINATION line. -/
theorem renderLines_nondest_dest :
    ∀ (p : List Line) (st st' : RState),
      (∀ l ∈ p, isDestLine l = false) → st.dest = .body →
      renderLines st p = .ok st' → st'.dest = .body := by
  intro p
  induction p with
  | nil =>
    intro st st' _ hd h
    rw [renderLines] at h
    injection h with h
    subst h
    exact hd
  | cons l ls ih =>
    intro st st' hp hd h
    rw [renderLines] at h
    split at h
    · exact Except.noConfusion h
    · rename_i st1 hstep
      exact ih st1 st' (fun x hx => hp x (List.mem_cons_of_mem l hx))
        (stepLine_nondest_dest st st1 l (hp l (List.mem_cons_self l ls)) hd hstep) h

/-- A text-line step leaves every render-context field except the current
section (and the pending link/hint cleared by the reset flag) unchanged. -/
theorem stepLine_text_localizes (st st' : RState) (tl : TextLine)
    (h : stepLine st (.text tl) = .ok st') :
    st'.done = st.done ∧ st'.noteIndex = st.noteIndex ∧ st'.blob = st.blob
      ∧ st'.dest = st.dest := by
  simp only [stepLine] at h
  repeat' split at h
  all_goals first
    | exact Except.noConfusion h
    | (injection h with h; subst h;
       exact ⟨applyReset_done st tl.reset, applyReset_noteIndex st tl.reset,
              applyReset_blob st tl.reset, applyReset_dest st tl.reset⟩)

/-- C9.  For every line sequence with no DESTINATION lines, the destination
state stays `D_BODY` after every successfully processed prefix; and every
text-line step from a BODY state changes only the current section — the body
children before the current section, the footnote counter, the pending blob
and the destination are untouched, so the text content attaches inside the
most recently opened section. -/
theorem c9_no_destination_stays_body (lines : List Line)
    (hnd : ∀ l ∈ lines, isDestLine l = false) :
    (∀ (p q : List Line) (st : RState), lines = p ++ q →
        renderLines (initState none) p = .ok st → st.dest = .body)
    ∧ ∀ (st st' : RState) (tl : TextLine), st.dest = .body →
        stepLine st (.text tl) = .ok st' →
        st'.done = st.done ∧ st'.noteIndex = st.noteIndex ∧ st'.blob = st.blob
          ∧ st'.dest = .body := by
  constructor
  · intro p q st hpq hrun
    refine renderLines_nondest_dest p (initState none) st ?_ rfl hrun
    intro x hx
    exact hnd x (by rw [hpq]; exact List.mem_append_left q hx)
  · intro st st' tl hd hstep
    obtain ⟨h1, h2, h3, h4⟩ := stepLine_text_localizes st st' tl hstep
    exact ⟨h1, h2, h3, h4.trans hd⟩

/-- C9, witness at the stream `[SECTION, TEXT "hi"]`. -/
theorem c9_no_destination_stays_body_witness :
    (∀ (p q : List Line) (st : RState),
        ([.typed ⟨.tSection none false, false⟩,
          .text ⟨"hi", false, false, false, false, false, false, false, false⟩]
          : List Line) = p ++ q →
        renderLines (initState none) p = .ok st → st.dest = .body)
    ∧ ∀ (st st' : RState) (tl : TextLine), st.dest = .body →
        stepLine st (.text tl) = .ok st' →
        st'.done = st.done ∧ st'.noteIndex = st.noteIndex ∧ st'.blob = st.blob
          ∧ st'.dest = .body :=
  c9_no_destination_stays_body
    [.typed ⟨.tSection none false, false⟩,
     .text ⟨"hi", false, false, false, false, false, false, false, false⟩]
    (by decide)

/-! Access machinery for the container operations. -/

theorem updIdx_eq (l : List α) (n : Nat) (f : α → Option α) :
    updIdx l n f = l[n]?.bind fun a => (f a).map (l.set n ·) := by
  induction l generalizing n with
  | nil => cases n <;> rfl
  | cons a t ih =>
    cases n with
    | zero =>
      rw [List.getElem?_cons_zero]
      cases f a <;> rfl
    | succ n =>
      rw [List.getElem?_cons_succ]
      simp only [updIdx]
      rw [ih n]
      cases ht : t[n]? with
      | none => rfl
      | some b =>
        simp only [Option.some_bind]
        cases hfb : f b <;> rfl

theorem get?_len_concat (l : List α) (a : α) : (l ++ [a])[l.length]? = some a := by
  induction l with
  | nil => rfl
  | cons x t ih => simp [ih]

theorem get?_set_self (l : List α) (n : Nat) (a b : α) (h : l[n]? = some a) :
    (l.set n b)[n]? = some b := by
  induction l generalizing n with
  | nil => exact Option.noConfusion h
  | cons x t ih =>
    cases n with
    | zero => simp [List.set]
    | succ n =>
      simp only [List.set, List.getElem?_cons_succ] at h ⊢
      exact ih n h

theorem getLast?_some_get? (l : List α) (a : α) (h : l.getLast? = some a) :
    l[l.length - 1]? = some a := by
  rw [List.getLast?_eq_getElem?] at h
  exact h

theorem lastIdxWhere_get :
    ∀ (pred : α → Bool) (l : List α) (i : Nat), lastIdxWhere pred l = some i →
      ∃ a, l[i]? = some a ∧ pred a = true := by
  intro pred l
  induction l with
  | nil => intro i h; exact Option.noConfusion h
  | cons a t ih =>
    intro i h
    rw [lastIdxWhere] at h
    split at h
    · rename_i j hj
      injection h with h
      subst h
      obtain ⟨b, hb, hp⟩ := ih j hj
      exact ⟨b, by simpa using hb, hp⟩
    · split at h
      · rename_i hp
        injection h with h
        subst h
        exact ⟨a, by simp, hp⟩
      · exact Option.noConfusion h

/-- The inline node at slot `n` of the container `loc` points at. -/
def getInlineAt (s : Sect) (loc : Loc) (n : Nat) : Option Inline :=
  match loc with
  | .child i =>
    match s.kids[i]? with
    | some (.par p) => p.kids[n]?
    | some (.h2 ks) => ks[n]?
    | _ => none
  | .asideP i j =>
    match s.kids[i]? with
    | some (.aside ks) =>
      match ks[j]? with
      | some (.par p) => p.kids[n]?
      | _ => none
    | _ => none
  | .cellSelf i r c =>
    (getCell s i r c).bind fun cell =>
      match cell.kids[n]? with
      | some (.inline v) => some v
      | _ => none
  | .cellP i r c j =>
    (getCell s i r c).bind fun cell =>
      match cell.kids[j]? with
      | some (.par p) => p.kids[n]?
      | _ => none

/-- The destination resolved by `destEl` is a valid container: its child list
has a length. -/
theorem destEl_containerLen (d : Dest) (s : Sect) (loc : Loc) (s1 : Sect)
    (h : destEl d s = .ok (loc, s1)) : ∃ n, containerLen s1 loc = some n := by
  cases d with
  | body =>
    rw [destEl] at h
    split at h
    · rename_i p hlast
      injection h with h
      injection h with h1 h2
      subst h1 h2
      exact ⟨p.kids.length, by
        simp [containerLen, getLast?_some_get? _ _ hlast]⟩
    · rename_i hlast
      injection h with h
      injection h with h1 h2
      subst h1 h2
      exact ⟨0, by simp [containerLen, get?_len_concat]⟩
  | head =>
    rw [destEl] at h
    split at h
    · rename_i ks hlast
      injection h with h
      injection h with h1 h2
      subst h1 h2
      exact ⟨ks.length, by
        simp [containerLen, getLast?_some_get? _ _ hlast]⟩
    · rename_i hlast
      injection h with h
      injection h with h1 h2
      subst h1 h2
      exact ⟨0, by simp [containerLen, get?_len_concat]⟩
  | note =>
    rw [destEl] at h
    split at h
    · exact Except.noConfusion h
    · rename_i i hlast
      split at h
      · rename_i ks hks
        split at h
        · rename_i j hj
          injection h with h
          injection h with h1 h2
          subst h1 h2
          obtain ⟨m, hm, hp⟩ := lastIdxWhere_get isParMixed ks j hj
          cases m with
          | inline v => exact absurd hp (by simp [isParMixed])
          | par p =>
            exact ⟨p.kids.length, by simp [containerLen, hks, hm]⟩
        · exact Except.noConfusion h
      · exact Except.noConfusion h
  | cell =>
    rw [destEl] at h
    split at h
    · exact Except.noConfusion h
    · rename_i i r c hlast
      split at h
      · exact Except.noConfusion h
      · rename_i cell hcell
        split at h
        · rename_i j hj
          injection h with h
          injection h with h1 h2
          subst h1 h2
          obtain ⟨m, hm, hp⟩ := lastIdxWhere_get isParMixed cell.kids j hj
          cases m with
          | inline v => exact absurd hp (by simp [isParMixed])
          | par p =>
            exact ⟨p.kids.length, by simp [containerLen, hcell, hm]⟩
        · injection h with h
          injection h with h1 h2
          subst h1 h2
          exact ⟨cell.kids.length, by simp [containerLen, hcell]⟩

/-- Appending at a container with a known length succeeds, the node lands at
the old length, and the length grows by one. -/
theorem appendAtLoc_of_len (s : Sect) (loc : Loc) (n : Nat) (x : Inline)
    (h : containerLen s loc = some n) :
    ∃ s', appendAtLoc s loc x = some s'
      ∧ getInlineAt s' loc n = some x ∧ containerLen s' loc = some (n + 1) := by
  cases loc with
  | child i =>
    rw [containerLen] at h
    split at h
    · rename_i p hp
      injection h with h
      subst h
      refine ⟨{ s with kids := s.kids.set i (.par { p with kids := p.kids ++ [x] }) },
        ?_, ?_, ?_⟩
      · simp [appendAtLoc, updIdx_eq, hp]
      · simp [getInlineAt, get?_set_self _ _ _ _ hp, get?_len_concat]
      · simp [containerLen, get?_set_self _ _ _ _ hp]
    · rename_i ks hp
      injection h with h
      subst h
      refine ⟨{ s with kids := s.kids.set i (.h2 (ks ++ [x])) }, ?_, ?_, ?_⟩
      · simp [appendAtLoc, updIdx_eq, hp]
      · simp [getInlineAt, get?_set_self _ _ _ _ hp, get?_len_concat]
      · simp [containerLen, get?_set_self _ _ _ _ hp]
    · exact Option.noConfusion h
  | asideP i j =>
    rw [containerLen] at h
    split at h
    · rename_i ks hp
      split at h
      · rename_i p hq
        injection h with h
        subst h
        refine ⟨{ s with kids := s.kids.set i (.aside (ks.set j (.par { p with kids := p.kids ++ [x] }))) }, ?_, ?_, ?_⟩
        · simp [appendAtLoc, updIdx_eq, hp, hq]
        · simp [getInlineAt, get?_set_self _ _ _ _ hp, get?_set_self _ _ _ _ hq,
            get?_len_concat]
        · simp [containerLen, get?_set_self _ _ _ _ hp, get?_set_self _ _ _ _ hq]
      · exact Option.noConfusion h
    · exact Option.noConfusion h
  | cellSelf i r c =>
    rw [containerLen] at h
    rw [getCell] at h
    split at h
    · rename_i t ht
      cases hr : t.rows[r]? with
      | none => rw [hr] at h; exact Option.noConfusion h
      | some row =>
        rw [hr] at h
        simp only [Option.some_bind] at h
        cases hc : row[c]? with
        | none => rw [hc] at h; exact Option.noConfusion h
        | some cell =>
          rw [hc] at h
          injection h with h
          subst h
          refine ⟨{ s with kids := s.kids.set i (.tbl { t with rows := t.rows.set r (row.set c { cell with kids := cell.kids ++ [.inline x] }) }) }, ?_, ?_, ?_⟩
          · simp [appendAtLoc, updIdx_eq, ht, hr, hc]
          · simp [getInlineAt, getCell, get?_set_self _ _ _ _ ht,
              get?_set_self _ _ _ _ hr, get?_set_self _ _ _ _ hc, get?_len_concat]
          · simp [containerLen, getCell, get?_set_self _ _ _ _ ht,
              get?_set_self _ _ _ _ hr, get?_set_self _ _ _ _ hc]
    · exact Option.noConfusion h
  | cellP i r c j =>
    rw [containerLen] at h
    rw [getCell] at h
    split at h
    · rename_i t ht
      cases hr : t.rows[r]? with
      | none => rw [hr] at h; exact Option.noConfusion h
      | some row =>
        rw [hr] at h
        simp only [Option.some_bind] at h
        cases hc : row[c]? with
        | none => rw [hc] at h; exact Option.noConfusion h
        | some cell =>
          rw [hc] at h
          simp only [Option.some_bind] at h
          split at h
          · rename_i p hq
            injection h with h
            subst h
            refine ⟨{ s with kids := s.kids.set i (.tbl { t with rows := t.rows.set r (row.set c { cell with kids := cell.kids.set j (.par { p with kids := p.kids ++ [x] }) }) }) }, ?_, ?_, ?_⟩
            · simp [appendAtLoc, updIdx_eq, ht, hr, hc, hq]
            · simp [getInlineAt, getCell, get?_set_self _ _ _ _ ht,
                get?_set_self _ _ _ _ hr, get?_set_self _ _ _ _ hc,
                get?_set_self _ _ _ _ hq, get?_len_concat]
            · simp [containerLen, getCell, get?_set_self _ _ _ _ ht,
                get?_set_self _ _ _ _ hr, get?_set_self _ _ _ _ hc,
                get?_set_self _ _ _ _ hq]
          · exact Option.noConfusion h
    · exact Option.noConfusion h

/-- Setting an attribute on an element slot succeeds and appends the pair to
the element's attribute list. -/
theorem setAttrAt_of_elt (s : Sect) (loc : Loc) (n : Nat) (tg : String)
    (a : List (String × String)) (cls : List String) (k : List Inline)
    (kv : String × String)
    (h : getInlineAt s loc n = some (.elt tg a cls k)) :
    ∃ s', setAttrAt s loc n kv = some s'
      ∧ getInlineAt s' loc n = some (.elt tg (a ++ [kv]) cls k) := by
  cases loc with
  | child i =>
    rw [getInlineAt] at h
    split at h
    · rename_i p hp
      refine ⟨{ s with kids := s.kids.set i (.par { p with kids := p.kids.set n (.elt tg (a ++ [kv]) cls k) }) }, ?_, ?_⟩
      · simp [setAttrAt, updIdx_eq, hp, h, setAttrElt]
      · simp [getInlineAt, get?_set_self _ _ _ _ hp, get?_set_self _ _ _ _ h]
    · rename_i ks hp
      refine ⟨{ s with kids := s.kids.set i (.h2 (ks.set n (.elt tg (a ++ [kv]) cls k))) }, ?_, ?_⟩
      · simp [setAttrAt, updIdx_eq, hp, h, setAttrElt]
      · simp [getInlineAt, get?_set_self _ _ _ _ hp, get?_set_self _ _ _ _ h]
    · exact Option.noConfusion h
  | asideP i j =>
    rw [getInlineAt] at h
    split at h
    · rename_i ks hp
      split at h
      · rename_i p hq
        refine ⟨{ s with kids := s.kids.set i (.aside (ks.set j (.par { p with kids := p.kids.set n (.elt tg (a ++ [kv]) cls k) }))) }, ?_, ?_⟩
        · simp [setAttrAt, updIdx_eq, hp, hq, h, setAttrElt]
        · simp [getInlineAt, get?_set_self _ _ _ _ hp, get?_set_self _ _ _ _ hq,
            get?_set_self _ _ _ _ h]
      · exact Option.noConfusion h
    · exact Option.noConfusion h
  | cellSelf i r c =>
    rw [getInlineAt] at h
    rw [getCell] at h
    split at h
    · rename_i t ht
      cases hr : t.rows[r]? with
      | none => rw [hr] at h; exact Option.noConfusion h
      | some row =>
        rw [hr] at h
        simp only [Option.some_bind] at h
        cases hc : row[c]? with
        | none => rw [hc] at h; exact Option.noConfusion h
        | some cell =>
          rw [hc] at h
          simp only [Option.some_bind] at h
          split at h
          · rename_i v hv
            injection h with h
            subst h
            refine ⟨{ s with kids := s.kids.set i (.tbl { t with rows := t.rows.set r (row.set c { cell with kids := cell.kids.set n (.inline (.elt tg (a ++ [kv]) cls k)) }) }) }, ?_, ?_⟩
            · simp [setAttrAt, updIdx_eq, ht, hr, hc, hv, setAttrMixed, setAttrElt]
            · simp [getInlineAt, getCell, get?_set_self _ _ _ _ ht,
                get?_set_self _ _ _ _ hr, get?_set_self _ _ _ _ hc,
                get?_set_self _ _ _ _ hv]
          · exact Option.noConfusion h
    · exact Option.noConfusion h
  | cellP i r c j =>
    rw [getInlineAt] at h
    rw [getCell] at h
    split at h
    · rename_i t ht
      cases hr : t.rows[r]? with
      | none => rw [hr] at h; exact Option.noConfusion h
      | some row =>
        rw [hr] at h
        simp only [Option.some_bind] at h
        cases hc : row[c]? with
        | none => rw [hc] at h; exact Option.noConfusion h
        | some cell =>
          rw [hc] at h
          simp only [Option.some_bind] at h
          split at h
          · rename_i p hq
            refine ⟨{ s with kids := s.kids.set i (.tbl { t with rows := t.rows.set r (row.set c { cell with kids := cell.kids.set j (.par { p with kids := p.kids.set n (.elt tg (a ++ [kv]) cls k) }) }) }) }, ?_, ?_⟩
            · simp [setAttrAt, updIdx_eq, ht, hr, hc, hq, h, setAttrElt]
            · simp [getInlineAt, getCell, get?_set_self _ _ _ _ ht,
                get?_set_self _ _ _ _ hr, get?_set_self _ _ _ _ hc,
                get?_set_self _ _ _ _ hq, get?_set_self _ _ _ _ h]
          · exact Option.noConfusion h
    · exact Option.noConfusion h

/-- C10.  When an IMAGE line with no inline content and no pending blob
raises the fatal error, a bare img element — no attributes, in particular no
src — has already been appended to the node `destEl` resolved, and the state
carried at the throw is the input state with exactly that mutated section:
the tree is mutated by the failing directive rather than left unchanged. -/
theorem c10_image_error_mutates (st : RState) (loc : Loc) (s1 : Sect)
    (hd : destEl st.dest st.sect = .ok (loc, s1)) (hb : st.blob = none) :
    ∃ s2, appendAtLoc s1 loc (.elt "img" [] [] []) = some s2
      ∧ stepLine st (.typed ⟨.tImage none, false⟩)
          = .error (.flt "No image content available", { st with sect := s2 }) := by
  obtain ⟨n, hn⟩ := destEl_containerLen _ _ _ _ hd
  obtain ⟨s2, ha, hg, hl⟩ := appendAtLoc_of_len s1 loc n (.elt "img" [] [] []) hn
  refine ⟨s2, ha, ?_⟩
  simp [stepLine, applyReset, hd, hn, ha, hb]

/-- C10, witness at the initial body state with no pending blob. -/
theorem c10_image_error_mutates_witness :
    ∃ s2, appendAtLoc ⟨[], [.par ⟨[], []⟩]⟩ (.child 0) (.elt "img" [] [] []) = some s2
      ∧ stepLine (⟨[], ⟨[], []⟩, 1, none, none, none, .body⟩ : RState)
            (.typed ⟨.tImage none, false⟩)
          = .error (.flt "No image content available",
              { (⟨[], ⟨[], []⟩, 1, none, none, none, .body⟩ : RState) with sect := s2 }) :=
  c10_image_error_mutates ⟨[], ⟨[], []⟩, 1, none, none, none, .body⟩ (.child 0)
    ⟨[], [.par ⟨[], []⟩]⟩ rfl rfl

/-- C7.  For an IMAGE line with no inline source content: with no pending
blob the pass fails with the fatal "No image content available" rendering
error; with a pending blob (mediaType, data) the step succeeds and the img
element it appended carries src = data:<mediaType>;base64,<data> built from
that blob. -/
theorem c7_image_source (st : RState) (loc : Loc) (s1 : Sect)
    (hd : destEl st.dest st.sect = .ok (loc, s1)) :
    (st.blob = none → ∃ stE, stepLine st (.typed ⟨.tImage none, false⟩)
        = .error (.flt "No image content available", stE))
    ∧ ∀ t d, st.blob = some (t, d) → ∃ n st' extra,
        stepLine st (.typed ⟨.tImage none, false⟩) = .ok st'
        ∧ getInlineAt st'.sect loc n
            = some (.elt "img" (("src", mkImgSrc t d) :: extra) [] []) := by
  obtain ⟨n, hn⟩ := destEl_containerLen _ _ _ _ hd
  obtain ⟨s2, ha, hg, hl⟩ := appendAtLoc_of_len s1 loc n (.elt "img" [] [] []) hn
  constructor
  · intro hb
    refine ⟨{ st with sect := s2 }, ?_⟩
    simp [stepLine, applyReset, hd, hn, ha, hb]
  · intro t d hb
    obtain ⟨s3, hs3, hg3⟩ :=
      setAttrAt_of_elt s2 loc n "img" [] [] [] ("src", mkImgSrc t d) hg
    cases hh : st.hint with
    | none =>
      refine ⟨n, { st with sect := s3 }, [], ?_, ?_⟩
      · simp [stepLine, applyReset, hd, hn, ha, hb, hs3, hh]
      · simpa using hg3
    | some hv =>
      by_cases hni : hv = ""
      · subst hni
        refine ⟨n, { st with sect := s3 }, [], ?_, ?_⟩
        · simp [stepLine, applyReset, hd, hn, ha, hb, hs3, hh]
        · simpa using hg3
      · obtain ⟨s4, hs4, hg4⟩ :=
          setAttrAt_of_elt s3 loc n "img" [("src", mkImgSrc t d)] [] [] ("title", hv) hg3
        refine ⟨n, { st with sect := s4, hint := none }, [("title", hv)], ?_, ?_⟩
        · simp [stepLine, applyReset, hd, hn, ha, hb, hs3, hh, hni, hs4]
        · simpa using hg4

/-- C7, witness: scenario C (no prior BLOB) errors, and with a pending blob
the appended img carries the data URI. -/
theorem c7_image_source_witness :
    (∃ stE, stepLine (⟨[], ⟨[], []⟩, 1, none, none, none, .body⟩ : RState)
        (.typed ⟨.tImage none, false⟩)
      = .error (.flt "No image content available", stE))
    ∧ ∃ n st' extra,
        stepLine (⟨[], ⟨[], []⟩, 1, none, none, some ("image/png", "AA"), .body⟩ : RState)
            (.typed ⟨.tImage none, false⟩) = .ok st'
        ∧ getInlineAt st'.sect (.child 0) n
            = some (.elt "img" (("src", mkImgSrc "image/png" "AA") :: extra) [] []) := by
  constructor
  · exact (c7_image_source ⟨[], ⟨[], []⟩, 1, none, none, none, .body⟩ (.child 0)
      ⟨[], [.par ⟨[], []⟩]⟩ rfl).1 rfl
  · exact (c7_image_source ⟨[], ⟨[], []⟩, 1, none, none, some ("image/png", "AA"), .body⟩
      (.child 0) ⟨[], [.par ⟨[], []⟩]⟩ rfl).2 "image/png" "AA" rfl

/-! Injectivity of the decimal rendering used in the footnote anchor names. -/

/-- Decimal character list of a natural number, structurally mirroring what
`Nat.toDigitsCore` produces. -/
def decChars (n : Nat) : List Char :=
  if n < 10 then [Nat.digitChar n]
  else decChars (n / 10) ++ [Nat.digitChar (n % 10)]
decreasing_by exact Nat.div_lt_self (by omega) (by omega)

theorem decChars_lt (n : Nat) (h : n < 10) : decChars n = [Nat.digitChar n] := by
  rw [decChars, if_pos h]

theorem decChars_ge (n : Nat) (h : ¬n < 10) :
    decChars n = decChars (n / 10) ++ [Nat.digitChar (n % 10)] := by
  rw [decChars, if_neg h]

theorem toDigitsCore_eq_decChars (fuel : Nat) :
    ∀ (n : Nat) (acc : List Char), n < fuel →
      Nat.toDigitsCore 10 fuel n acc = decChars n ++ acc := by
  induction fuel with
  | zero => intro n acc h; omega
  | succ fuel ih =>
    intro n acc h
    rw [Nat.toDigitsCore]
    by_cases h10 : n / 10 = 0
    · have hlt : n < 10 := by omega
      have hm : n % 10 = n := Nat.mod_eq_of_lt hlt
      simp only [h10, if_pos, hm]
      rw [decChars_lt n hlt]
      rfl
    · rw [if_neg h10]
      rw [ih (n / 10) _ (by omega)]
      rw [decChars_ge n (by omega)]
      simp

theorem repr_eq_decChars (n : Nat) : Nat.repr n = (decChars n).asString := by
  rw [Nat.repr, Nat.toDigits, toDigitsCore_eq_decChars (n + 1) n [] (by omega),
    List.append_nil]

theorem digitChar_inj_lt (a b : Nat) (ha : a < 10) (hb : b < 10)
    (h : Nat.digitChar a = Nat.digitChar b) : a = b := by
  have hfin : ∀ x y : Fin 10, Nat.digitChar x = Nat.digitChar y → x = y := by decide
  have := hfin ⟨a, ha⟩ ⟨b, hb⟩ h
  exact congrArg Fin.val this

theorem decChars_ne_nil (n : Nat) : decChars n ≠ [] := by
  by_cases h : n < 10
  · rw [decChars_lt n h]
    exact fun hc => List.noConfusion hc
  · rw [decChars_ge n h]
    simp

theorem decChars_inj (n : Nat) : ∀ m, decChars n = decChars m → n = m := by
  induction n using Nat.strong_induction_on with
  | _ n ih =>
    intro m h
    by_cases hn : n < 10 <;> by_cases hm : m < 10
    · rw [decChars_lt n hn, decChars_lt m hm] at h
      injection h with h
      exact digitChar_inj_lt n m hn hm h
    · rw [decChars_lt n hn, decChars_ge m hm] at h
      obtain ⟨c, l', hl⟩ : ∃ c l', decChars (m / 10) = c :: l' := by
        rcases hd : decChars (m / 10) with _ | ⟨c, l'⟩
        · exact absurd hd (decChars_ne_nil _)
        · exact ⟨c, l', rfl⟩
      rw [hl] at h
      simp at h
    · rw [decChars_ge n hn, decChars_lt m hm] at h
      obtain ⟨c, l', hl⟩ : ∃ c l', decChars (n / 10) = c :: l' := by
        rcases hd : decChars (n / 10) with _ | ⟨c, l'⟩
        · exact absurd hd (decChars_ne_nil _)
        · exact ⟨c, l', rfl⟩
      rw [hl] at h
      simp at h
    · rw [decChars_ge n hn, decChars_ge m hm] at h
      obtain ⟨h1, h2⟩ := List.append_inj' h (by rfl)
      injection h2 with h2
      have hdiv : n / 10 = m / 10 := ih (n / 10) (Nat.div_lt_self (by omega) (by omega)) _ h1
      have hmod : n % 10 = m % 10 :=
        digitChar_inj_lt _ _ (Nat.mod_lt _ (by omega)) (Nat.mod_lt _ (by omega)) h2
      omega

theorem natRepr_inj (n m : Nat) (h : Nat.repr n = Nat.repr m) : n = m := by
  rw [repr_eq_decChars, repr_eq_decChars] at h
  exact decChars_inj n m (congrArg String.data h)

/-! Counting the footnote anchors in the tree.  The counted predicate looks
only at an element's tag-independent identity: its class list and two
attribute pairs.  Appending children to an element or setting further src /
title attributes never changes it, which matches the mutations the render
loop performs after an anchor is created. -/

mutual

/-- Number of nodes of an inline tree satisfying `p` (the root included). -/
def cntI (p : Inline → Bool) : Inline → Nat
  | .textNode s => if p (.textNode s) then 1 else 0
  | .elt t a c kids => (if p (.elt t a c kids) then 1 else 0) + cntIs p kids

def cntIs (p : Inline → Bool) : List Inline → Nat
  | [] => 0
  | x :: xs => cntI p x + cntIs p xs

end

def cntPara (p : Inline → Bool) (v : Para) : Nat := cntIs p v.kids

def cntMixed (p : Inline → Bool) : MixedChild → Nat
  | .inline v => cntI p v
  | .par v => cntPara p v

def cntMixeds (p : Inline → Bool) (l : List MixedChild) : Nat := (l.map (cntMixed p)).sum

def cntCell (p : Inline → Bool) (c : Cell) : Nat := cntMixeds p c.kids

def cntRow (p : Inline → Bool) (row : List Cell) : Nat := (row.map (cntCell p)).sum

def cntTable (p : Inline → Bool) (t : Table) : Nat := (t.rows.map (cntRow p)).sum

def cntSectChild (p : Inline → Bool) : SectChild → Nat
  | .par v => cntPara p v
  | .h2 ks => cntIs p ks
  | .tbl t => cntTable p t
  | .aside ks => cntMixeds p ks

def cntSect (p : Inline → Bool) (s : Sect) : Nat := (s.kids.map (cntSectChild p)).sum

def cntBodyChild (p : Inline → Bool) : BodyChild → Nat
  | .sec s => cntSect p s
  | _ => 0

def cntBody (p : Inline → Bool) (l : List BodyChild) : Nat :=
  (l.map (cntBodyChild p)).sum

def cntState (p : Inline → Bool) (st : RState) : Nat := cntBody p (bodyOf st)

/-- Predicate singling out one of the two anchors of a footnote pair: an
element carrying the marker class and the two name/href attribute pairs. -/
def anchorPred (cls0 : String) (na hr : String × String) : Inline → Bool
  | .elt _ attrs cls _ => cls.contains cls0 && attrs.contains na && attrs.contains hr
  | .textNode _ => false

/-- The forward ("to-note") anchor of footnote `m`, as the D_NOTE handler
emits it (name, href, class, then the visible index as text content). -/
def fwdAnchorElt (m : Nat) : Inline :=
  .elt "a" [("name", "flt-note-return-" ++ Nat.repr m), ("href", "#flt-note-" ++ Nat.repr m)]
    ["to-note"] [.textNode (Nat.repr m)]

/-- The back ("from-note") anchor of footnote `m`. -/
def bakAnchorElt (m : Nat) : Inline :=
  .elt "a" [("name", "flt-note-" ++ Nat.repr m), ("href", "#flt-note-return-" ++ Nat.repr m)]
    ["from-note"] []

/-- Identifies the forward anchor of footnote `m`: class "to-note" with the
mirrored name/href pair keyed by `m`. -/
def isFwdA (m : Nat) : Inline → Bool :=
  anchorPred "to-note" ("name", "flt-note-return-" ++ Nat.repr m)
    ("href", "#flt-note-" ++ Nat.repr m)

/-- Identifies the back anchor of footnote `m`. -/
def isBakA (m : Nat) : Inline → Bool :=
  anchorPred "from-note" ("name", "flt-note-" ++ Nat.repr m)
    ("href", "#flt-note-return-" ++ Nat.repr m)

theorem cntIs_append (p : Inline → Bool) (l1 l2 : List Inline) :
    cntIs p (l1 ++ l2) = cntIs p l1 + cntIs p l2 := by
  induction l1 with
  | nil => simp [cntIs]
  | cons x xs ih => simp [cntIs, ih]; omega

theorem sumMap_set (f : α → Nat) (l : List α) (n : Nat) (a b : α)
    (h : l[n]? = some a) :
    ((l.set n b).map f).sum + f a = (l.map f).sum + f b := by
  induction l generalizing n with
  | nil => exact Option.noConfusion h
  | cons x t ih =>
    cases n with
    | zero =>
      simp only [List.getElem?_cons_zero] at h
      injection h with h
      subst h
      simp only [List.set, List.map_cons, List.sum_cons]
      omega
    | succ n =>
      simp only [List.getElem?_cons_succ] at h
      have := ih n h
      simp only [List.set, List.map_cons, List.sum_cons]
      omega

/-- A predicate that ignores an element's children and its tag. -/
theorem anchorPred_elt (c0 : String) (na hr : String × String) (t : String)
    (a : List (String × String)) (c : List String) (k : List Inline) :
    anchorPred c0 na hr (.elt t a c k)
      = (c.contains c0 && a.contains na && a.contains hr) := rfl

theorem anchorPred_nil_classes (c0 : String) (na hr : String × String) (t : String)
    (a : List (String × String)) (k : List Inline) :
    anchorPred c0 na hr (.elt t a [] k) = false := by
  simp [anchorPred_elt]

theorem anchorPred_attr_append (c0 : String) (na hr kv : String × String) (t : String)
    (a : List (String × String)) (c : List String) (k k' : List Inline)
    (h1 : kv ≠ na) (h2 : kv ≠ hr) :
    anchorPred c0 na hr (.elt t (a ++ [kv]) c k) = anchorPred c0 na hr (.elt t a c k') := by
  have h1' : na ≠ kv := Ne.symm h1
  have h2' : hr ≠ kv := Ne.symm h2
  simp [anchorPred_elt, h1', h2']

theorem anchorPred_kids (c0 : String) (na hr : String × String) (t : String)
    (a : List (String × String)) (c : List String) (k k' : List Inline) :
    anchorPred c0 na hr (.elt t a c k) = anchorPred c0 na hr (.elt t a c k') := rfl

/-- String append on the left is cancellative. -/
theorem string_append_left_cancel (s t u : String) (h : s ++ t = s ++ u) : t = u := by
  have hd := congrArg String.data h
  simp only [String.data_append] at hd
  exact String.ext (List.append_cancel_left hd)

theorem isFwdA_fwd (m m' : Nat) :
    isFwdA m (fwdAnchorElt m') = if m' = m then true else false := by
  by_cases h : m' = m
  · subst h
    simp [isFwdA, fwdAnchorElt, anchorPred_elt]
  · have hne : Nat.repr m' ≠ Nat.repr m := fun hc => h (natRepr_inj _ _ hc)
    have hne1 : ("name", "flt-note-return-" ++ Nat.repr m')
        ≠ ("name", "flt-note-return-" ++ Nat.repr m) := by
      intro hc
      injection hc with _ hc
      exact hne (string_append_left_cancel _ _ _ hc)
    have hne2 : ("href", "#flt-note-" ++ Nat.repr m')
        ≠ ("href", "#flt-note-" ++ Nat.repr m) := by
      intro hc
      injection hc with _ hc
      exact hne (string_append_left_cancel _ _ _ hc)
    simp [isFwdA, fwdAnchorElt, anchorPred_elt, h, hne1, hne2]
    intro hc hc2
    exact hne (string_append_left_cancel _ _ _ hc).symm

theorem isFwdA_bak (m m' : Nat) : isFwdA m (bakAnchorElt m') = false := by
  simp [isFwdA, bakAnchorElt, anchorPred_elt]

theorem isBakA_fwd (m m' : Nat) : isBakA m (fwdAnchorElt m') = false := by
  simp [isBakA, fwdAnchorElt, anchorPred_elt]

theorem isBakA_bak (m m' : Nat) :
    isBakA m (bakAnchorElt m') = if m' = m then true else false := by
  by_cases h : m' = m
  · subst h
    simp [isBakA, bakAnchorElt, anchorPred_elt]
  · have hne : Nat.repr m' ≠ Nat.repr m := fun hc => h (natRepr_inj _ _ hc)
    have hne1 : ("name", "flt-note-" ++ Nat.repr m')
        ≠ ("name", "flt-note-" ++ Nat.repr m) := by
      intro hc
      injection hc with _ hc
      exact hne (string_append_left_cancel _ _ _ hc)
    have hne2 : ("href", "#flt-note-return-" ++ Nat.repr m')
        ≠ ("href", "#flt-note-return-" ++ Nat.repr m) := by
      intro hc
      injection hc with _ hc
      exact hne (string_append_left_cancel _ _ _ hc)
    simp [isBakA, bakAnchorElt, anchorPred_elt, h, hne1, hne2]
    intro hc hc2
    exact hne (string_append_left_cancel _ _ _ hc).symm

/-- Count equation for `appendAtLoc`: appending an inline node adds exactly
the count of that node's subtree, for any predicate. -/
theorem cntSect_appendAtLoc (p : Inline → Bool) (s : Sect) (loc : Loc) (x : Inline)
    (s' : Sect) (h : appendAtLoc s loc x = some s') :
    cntSect p s' = cntSect p s + cntI p x := by
  cases loc with
  | child i =>
    simp only [appendAtLoc, updIdx_eq] at h
    cases hk : s.kids[i]? with
    | none => rw [hk] at h; exact Option.noConfusion h
    | some kchild =>
      rw [hk] at h
      simp only [Option.some_bind] at h
      cases kchild with
      | par pp =>
        simp only [Option.map_map, Function.comp, Option.map_some'] at h
        injection h with h
        subst h
        have hs := sumMap_set (cntSectChild p) s.kids i _
          (.par { pp with kids := pp.kids ++ [x] }) hk
        simp only [cntSect, cntSectChild, cntPara, cntIs_append, cntIs] at hs ⊢
        omega
      | h2 ks =>
        simp only [Option.map_map, Function.comp, Option.map_some'] at h
        injection h with h
        subst h
        have hs := sumMap_set (cntSectChild p) s.kids i _ (.h2 (ks ++ [x])) hk
        simp only [cntSect, cntSectChild, cntIs_append, cntIs] at hs ⊢
        omega
      | tbl t => simp at h
      | aside ks => simp at h
  | asideP i j =>
    simp only [appendAtLoc, updIdx_eq] at h
    cases hk : s.kids[i]? with
    | none => rw [hk] at h; exact Option.noConfusion h
    | some kchild =>
      rw [hk] at h
      simp only [Option.some_bind] at h
      cases kchild with
      | par pp => simp at h
      | h2 ks => simp at h
      | tbl t => simp at h
      | aside ks =>
        cases hq : ks[j]? with
        | none => simp [hq] at h
        | some m =>
          cases m with
          | inline v => simp [hq] at h
          | par pp =>
            simp only [hq, Option.some_bind, Option.map_map, Function.comp, Option.map_some'] at h
            injection h with h
            subst h
            have hs1 := sumMap_set (cntMixed p) ks j _
              (.par { pp with kids := pp.kids ++ [x] }) hq
            have hs2 := sumMap_set (cntSectChild p) s.kids i _
              (.aside (ks.set j (.par { pp with kids := pp.kids ++ [x] }))) hk
            simp only [cntSect, cntSectChild, cntMixeds, cntMixed, cntPara,
              cntIs_append, cntIs] at hs1 hs2 ⊢
            omega
  | cellSelf i r c =>
    simp only [appendAtLoc, updIdx_eq] at h
    cases hk : s.kids[i]? with
    | none => rw [hk] at h; exact Option.noConfusion h
    | some kchild =>
      rw [hk] at h
      simp only [Option.some_bind] at h
      cases kchild with
      | par pp => simp at h
      | h2 ks => simp at h
      | aside ks => simp at h
      | tbl t =>
        cases hr : t.rows[r]? with
        | none => simp [hr] at h
        | some row =>
          cases hc : row[c]? with
          | none => simp [hr, hc] at h
          | some cell =>
            simp only [hr, hc, Option.some_bind, Option.map_map, Function.comp, Option.map_some'] at h
            injection h with h
            subst h
            have hs1 := sumMap_set (cntCell p) row c _
              { cell with kids := cell.kids ++ [.inline x] } hc
            have hs2 := sumMap_set (cntRow p) t.rows r _
              (row.set c { cell with kids := cell.kids ++ [.inline x] }) hr
            have hs3 := sumMap_set (cntSectChild p) s.kids i _
              (.tbl { t with rows := t.rows.set r (row.set c { cell with kids := cell.kids ++ [.inline x] }) }) hk
            simp only [cntSect, cntSectChild, cntTable, cntRow, cntCell, cntMixeds,
              List.map_append, List.sum_append, List.map_cons, List.sum_cons,
              List.map_nil, List.sum_nil, cntMixed] at hs1 hs2 hs3 ⊢
            omega
  | cellP i r c j =>
    simp only [appendAtLoc, updIdx_eq] at h
    cases hk : s.kids[i]? with
    | none => rw [hk] at h; exact Option.noConfusion h
    | some kchild =>
      rw [hk] at h
      simp only [Option.some_bind] at h
      cases kchild with
      | par pp => simp at h
      | h2 ks => simp at h
      | aside ks => simp at h
      | tbl t =>
        cases hr : t.rows[r]? with
        | none => simp [hr] at h
        | some row =>
          cases hc : row[c]? with
          | none => simp [hr, hc] at h
          | some cell =>
            cases hq : cell.kids[j]? with
            | none => simp [hr, hc, hq] at h
            | some m =>
              cases m with
              | inline v => simp [hr, hc, hq] at h
              | par pp =>
                simp only [hr, hc, hq, Option.some_bind, Option.map_map,
                  Function.comp, Option.map_some'] at h
                injection h with h
                subst h
                have hs0 := sumMap_set (cntMixed p) cell.kids j _
                  (.par { pp with kids := pp.kids ++ [x] }) hq
                have hs1 := sumMap_set (cntCell p) row c _
                  { cell with kids := cell.kids.set j (.par { pp with kids := pp.kids ++ [x] }) } hc
                have hs2 := sumMap_set (cntRow p) t.rows r _
                  (row.set c { cell with kids := cell.kids.set j (.par { pp with kids := pp.kids ++ [x] }) }) hr
                have hs3 := sumMap_set (cntSectChild p) s.kids i _
                  (.tbl { t with rows := t.rows.set r (row.set c { cell with kids := cell.kids.set j (.par { pp with kids := pp.kids ++ [x] }) }) }) hk
                simp only [cntSect, cntSectChild, cntTable, cntRow, cntCell, cntMixeds,
                  cntMixed, cntPara, cntIs_append, cntIs] at hs0 hs1 hs2 hs3 ⊢
                omega

theorem cntIs_set (p : Inline → Bool) (l : List Inline) (n : Nat) (a b : Inline)
    (h : l[n]? = some a) :
    cntIs p (l.set n b) + cntI p a = cntIs p l + cntI p b := by
  induction l generalizing n with
  | nil => exact Option.noConfusion h
  | cons x t ih =>
    cases n with
    | zero =>
      simp only [List.getElem?_cons_zero] at h
      injection h with h
      subst h
      simp only [List.set, cntIs]
      omega
    | succ n =>
      simp only [List.getElem?_cons_succ] at h
      have := ih n h
      simp only [List.set, cntIs]
      omega

/-- Count equation for `appendListAtLoc`. -/
theorem cntSect_appendListAtLoc (p : Inline → Bool) (loc : Loc) :
    ∀ (adds : List Inline) (s s' : Sect),
      appendListAtLoc s loc adds = some s' →
        cntSect p s' = cntSect p s + cntIs p adds := by
  intro adds
  induction adds with
  | nil =>
    intro s s' h
    injection h with h
    subst h
    simp [cntIs]
  | cons x xs ih =>
    intro s s' h
    rw [appendListAtLoc] at h
    cases ha : appendAtLoc s loc x with
    | none => rw [ha] at h; exact Option.noConfusion h
    | some s1 =>
      rw [ha] at h
      simp only [Option.some_bind] at h
      have h2 := ih s1 s' h
      rw [h2, cntSect_appendAtLoc p s loc x s1 ha]
      simp only [cntIs]
      omega

/-- Count equation for `appendIntoAnchor`: the element at the slot is an
element node, and the section count changes by the difference between its
count before and after the children are appended. -/
theorem cntSect_appendIntoAnchor (p : Inline → Bool) (s : Sect) (loc : Loc) (n : Nat)
    (adds : List Inline) (s' : Sect) (h : appendIntoAnchor s loc n adds = some s') :
    ∃ tg a c k, getInlineAt s loc n = some (.elt tg a c k)
      ∧ cntSect p s' + cntI p (.elt tg a c k)
          = cntSect p s + cntI p (.elt tg a c (k ++ adds)) := by
  cases loc with
  | child i =>
    simp only [appendIntoAnchor, updIdx_eq] at h
    cases hk : s.kids[i]? with
    | none => rw [hk] at h; exact Option.noConfusion h
    | some kchild =>
      rw [hk] at h
      simp only [Option.some_bind] at h
      cases kchild with
      | tbl t => simp at h
      | aside ks => simp at h
      | par pp =>
        simp only [Option.map_map, Function.comp, Option.map_some'] at h
        cases hn : pp.kids[n]? with
        | none => simp [hn] at h
        | some e =>
          cases e with
          | textNode str => simp [hn, intoElt] at h
          | elt tg a c k =>
            simp only [hn, intoElt, Option.some_bind, Option.map_some'] at h
            injection h with h
            subst h
            refine ⟨tg, a, c, k, by simp [getInlineAt, hk, hn], ?_⟩
            have hi := cntIs_set p pp.kids n _ (.elt tg a c (k ++ adds)) hn
            have hs := sumMap_set (cntSectChild p) s.kids i _
              (.par { pp with kids := pp.kids.set n (.elt tg a c (k ++ adds)) }) hk
            simp only [cntSect, cntSectChild, cntPara, cntI, cntIs_append, Function.comp] at hi hs ⊢
            omega
      | h2 ks =>
        simp only [Option.map_map, Function.comp, Option.map_some'] at h
        cases hn : ks[n]? with
        | none => simp [hn] at h
        | some e =>
          cases e with
          | textNode str => simp [hn, intoElt] at h
          | elt tg a c k =>
            simp only [hn, intoElt, Option.some_bind, Option.map_some'] at h
            injection h with h
            subst h
            refine ⟨tg, a, c, k, by simp [getInlineAt, hk, hn], ?_⟩
            have hi := cntIs_set p ks n _ (.elt tg a c (k ++ adds)) hn
            have hs := sumMap_set (cntSectChild p) s.kids i _
              (.h2 (ks.set n (.elt tg a c (k ++ adds)))) hk
            simp only [cntSect, cntSectChild, cntI, cntIs_append, Function.comp] at hi hs ⊢
            omega
  | asideP i j =>
    simp only [appendIntoAnchor, updIdx_eq] at h
    cases hk : s.kids[i]? with
    | none => rw [hk] at h; exact Option.noConfusion h
    | some kchild =>
      rw [hk] at h
      simp only [Option.some_bind] at h
      cases kchild with
      | par pp => simp at h
      | h2 ks => simp at h
      | tbl t => simp at h
      | aside ks =>
        cases hq : ks[j]? with
        | none => simp [hq] at h
        | some m =>
          cases m with
          | inline v => simp [hq] at h
          | par pp =>
            simp only [hq, Option.some_bind, Option.map_map, Function.comp,
              Option.map_some'] at h
            cases hn : pp.kids[n]? with
            | none => simp [hn] at h
            | some e =>
              cases e with
              | textNode str => simp [hn, intoElt] at h
              | elt tg a c k =>
                simp only [hn, intoElt, Option.some_bind, Option.map_some'] at h
                injection h with h
                subst h
                refine ⟨tg, a, c, k, by simp [getInlineAt, hk, hq, hn], ?_⟩
                have hi := cntIs_set p pp.kids n _ (.elt tg a c (k ++ adds)) hn
                have hm := sumMap_set (cntMixed p) ks j _
                  (.par { pp with kids := pp.kids.set n (.elt tg a c (k ++ adds)) }) hq
                have hs := sumMap_set (cntSectChild p) s.kids i _
                  (.aside (ks.set j (.par { pp with kids := pp.kids.set n (.elt tg a c (k ++ adds)) }))) hk
                simp only [cntSect, cntSectChild, cntMixeds, cntMixed, cntPara, cntI,
                  cntIs_append, Function.comp] at hi hm hs ⊢
                omega
  | cellSelf i r c0 =>
    simp only [appendIntoAnchor, updIdx_eq] at h
    cases hk : s.kids[i]? with
    | none => rw [hk] at h; exact Option.noConfusion h
    | some kchild =>
      rw [hk] at h
      simp only [Option.some_bind] at h
      cases kchild with
      | par pp => simp at h
      | h2 ks => simp at h
      | aside ks => simp at h
      | tbl t =>
        cases hr : t.rows[r]? with
        | none => simp [hr] at h
        | some row =>
          cases hc : row[c0]? with
          | none => simp [hr, hc] at h
          | some cell =>
            simp only [hr, hc, Option.some_bind, Option.map_map, Function.comp,
              Option.map_some'] at h
            cases hq : cell.kids[n]? with
            | none => simp [hq] at h
            | some m =>
              cases m with
              | par pp => simp [hq, intoMixed] at h
              | inline e =>
                cases e with
                | textNode str => simp [hq, intoMixed, intoElt] at h
                | elt tg a c k =>
                  simp only [hq, intoMixed, intoElt, Option.some_bind,
                    Option.map_some'] at h
                  injection h with h
                  subst h
                  refine ⟨tg, a, c, k, by simp [getInlineAt, getCell, hk, hr, hc, hq], ?_⟩
                  have hq2 := sumMap_set (cntMixed p) cell.kids n _
                    (.inline (.elt tg a c (k ++ adds))) hq
                  have hc2 := sumMap_set (cntCell p) row c0 _
                    { cell with kids := cell.kids.set n (.inline (.elt tg a c (k ++ adds))) } hc
                  have hr2 := sumMap_set (cntRow p) t.rows r _
                    (row.set c0 { cell with kids := cell.kids.set n (.inline (.elt tg a c (k ++ adds))) }) hr
                  have hs := sumMap_set (cntSectChild p) s.kids i _
                    (.tbl { t with rows := t.rows.set r (row.set c0 { cell with kids := cell.kids.set n (.inline (.elt tg a c (k ++ adds))) }) }) hk
                  simp only [cntSect, cntSectChild, cntTable, cntRow, cntCell, cntMixeds,
                    cntMixed, cntI, cntIs_append, Function.comp] at hq2 hc2 hr2 hs ⊢
                  omega
  | cellP i r c0 j =>
    simp only [appendIntoAnchor, updIdx_eq] at h
    cases hk : s.kids[i]? with
    | none => rw [hk] at h; exact Option.noConfusion h
    | some kchild =>
      rw [hk] at h
      simp only [Option.some_bind] at h
      cases kchild with
      | par pp => simp at h
      | h2 ks => simp at h
      | aside ks => simp at h
      | tbl t =>
        cases hr : t.rows[r]? with
        | none => simp [hr] at h
        | some row =>
          cases hc : row[c0]? with
          | none => simp [hr, hc] at h
          | some cell =>
            simp only [hr, hc, Option.some_bind, Option.map_map, Function.comp,
              Option.map_some'] at h
            cases hq : cell.kids[j]? with
            | none => simp [hq] at h
            | some m =>
              cases m with
              | inline v => simp [hq] at h
              | par pp =>
                simp only [hq, Option.some_bind, Option.map_map, Function.comp,
                  Option.map_some'] at h
                cases hn : pp.kids[n]? with
                | none => simp [hn] at h
                | some e =>
                  cases e with
                  | textNode str => simp [hn, intoElt] at h
                  | elt tg a c k =>
                    simp only [hn, intoElt, Option.some_bind, Option.map_some'] at h
                    injection h with h
                    subst h
                    refine ⟨tg, a, c, k,
                      by simp [getInlineAt, getCell, hk, hr, hc, hq, hn], ?_⟩
                    have hi := cntIs_set p pp.kids n _ (.elt tg a c (k ++ adds)) hn
                    have hq2 := sumMap_set (cntMixed p) cell.kids j _
                      (.par { pp with kids := pp.kids.set n (.elt tg a c (k ++ adds)) }) hq
                    have hc2 := sumMap_set (cntCell p) row c0 _
                      { cell with kids := cell.kids.set j (.par { pp with kids := pp.kids.set n (.elt tg a c (k ++ adds)) }) } hc
                    have hr2 := sumMap_set (cntRow p) t.rows r _
                      (row.set c0 { cell with kids := cell.kids.set j (.par { pp with kids := pp.kids.set n (.elt tg a c (k ++ adds)) }) }) hr
                    have hs := sumMap_set (cntSectChild p) s.kids i _
                      (.tbl { t with rows := t.rows.set r (row.set c0 { cell with kids := cell.kids.set j (.par { pp with kids := pp.kids.set n (.elt tg a c (k ++ adds)) }) }) }) hk
                    simp only [cntSect, cntSectChild, cntTable, cntRow, cntCell,
                      cntMixeds, cntMixed, cntPara, cntI, cntIs_append, Function.comp] at hi hq2 hc2 hr2 hs ⊢
                    omega


/-- Count equation for `setAttrAt`: the element at the slot is an element
node, and the section count changes by the difference between its count
before and after the attribute pair is appended. -/
theorem cntSect_setAttrAt (p : Inline → Bool) (s : Sect) (loc : Loc) (n : Nat)
    (kv : String × String) (s' : Sect) (h : setAttrAt s loc n kv = some s') :
    ∃ tg a c k, getInlineAt s loc n = some (.elt tg a c k)
      ∧ cntSect p s' + cntI p (.elt tg a c k)
          = cntSect p s + cntI p (.elt tg (a ++ [kv]) c k) := by
  cases loc with
  | child i =>
    simp only [setAttrAt, updIdx_eq] at h
    cases hk : s.kids[i]? with
    | none => rw [hk] at h; exact Option.noConfusion h
    | some kchild =>
      rw [hk] at h
      simp only [Option.some_bind] at h
      cases kchild with
      | tbl t => simp at h
      | aside ks => simp at h
      | par pp =>
        simp only [Option.map_map, Function.comp, Option.map_some'] at h
        cases hn : pp.kids[n]? with
        | none => simp [hn] at h
        | some e =>
          cases e with
          | textNode str => simp [hn, setAttrElt] at h
          | elt tg a c k =>
            simp only [hn, setAttrElt, Option.some_bind, Option.map_some'] at h
            injection h with h
            subst h
            refine ⟨tg, a, c, k, by simp [getInlineAt, hk, hn], ?_⟩
            have hi := cntIs_set p pp.kids n _ (.elt tg (a ++ [kv]) c k) hn
            have hs := sumMap_set (cntSectChild p) s.kids i _
              (.par { pp with kids := pp.kids.set n (.elt tg (a ++ [kv]) c k) }) hk
            simp only [cntSect, cntSectChild, cntPara, cntI, cntIs_append, Function.comp] at hi hs ⊢
            omega
      | h2 ks =>
        simp only [Option.map_map, Function.comp, Option.map_some'] at h
        cases hn : ks[n]? with
        | none => simp [hn] at h
        | some e =>
          cases e with
          | textNode str => simp [hn, setAttrElt] at h
          | elt tg a c k =>
            simp only [hn, setAttrElt, Option.some_bind, Option.map_some'] at h
            injection h with h
            subst h
            refine ⟨tg, a, c, k, by simp [getInlineAt, hk, hn], ?_⟩
            have hi := cntIs_set p ks n _ (.elt tg (a ++ [kv]) c k) hn
            have hs := sumMap_set (cntSectChild p) s.kids i _
              (.h2 (ks.set n (.elt tg (a ++ [kv]) c k))) hk
            simp only [cntSect, cntSectChild, cntI, cntIs_append, Function.comp] at hi hs ⊢
            omega
  | asideP i j =>
    simp only [setAttrAt, updIdx_eq] at h
    cases hk : s.kids[i]? with
    | none => rw [hk] at h; exact Option.noConfusion h
    | some kchild =>
      rw [hk] at h
      simp only [Option.some_bind] at h
      cases kchild with
      | par pp => simp at h
      | h2 ks => simp at h
      | tbl t => simp at h
      | aside ks =>
        cases hq : ks[j]? with
        | none => simp [hq] at h
        | some m =>
          cases m with
          | inline v => simp [hq] at h
          | par pp =>
            simp only [hq, Option.some_bind, Option.map_map, Function.comp,
              Option.map_some'] at h
            cases hn : pp.kids[n]? with
            | none => simp [hn] at h
            | some e =>
              cases e with
              | textNode str => simp [hn, setAttrElt] at h
              | elt tg a c k =>
                simp only [hn, setAttrElt, Option.some_bind, Option.map_some'] at h
                injection h with h
                subst h
                refine ⟨tg, a, c, k, by simp [getInlineAt, hk, hq, hn], ?_⟩
                have hi := cntIs_set p pp.kids n _ (.elt tg (a ++ [kv]) c k) hn
                have hm := sumMap_set (cntMixed p) ks j _
                  (.par { pp with kids := pp.kids.set n (.elt tg (a ++ [kv]) c k) }) hq
                have hs := sumMap_set (cntSectChild p) s.kids i _
                  (.aside (ks.set j (.par { pp with kids := pp.kids.set n (.elt tg (a ++ [kv]) c k) }))) hk
                simp only [cntSect, cntSectChild, cntMixeds, cntMixed, cntPara, cntI,
                  cntIs_append, Function.comp] at hi hm hs ⊢
                omega
  | cellSelf i r c0 =>
    simp only [setAttrAt, updIdx_eq] at h
    cases hk : s.kids[i]? with
    | none => rw [hk] at h; exact Option.noConfusion h
    | some kchild =>
      rw [hk] at h
      simp only [Option.some_bind] at h
      cases kchild with
      | par pp => simp at h
      | h2 ks => simp at h
      | aside ks => simp at h
      | tbl t =>
        cases hr : t.rows[r]? with
        | none => simp [hr] at h
        | some row =>
          cases hc : row[c0]? with
          | none => simp [hr, hc] at h
          | some cell =>
            simp only [hr, hc, Option.some_bind, Option.map_map, Function.comp,
              Option.map_some'] at h
            cases hq : cell.kids[n]? with
            | none => simp [hq] at h
            | some m =>
              cases m with
              | par pp => simp [hq, setAttrMixed] at h
              | inline e =>
                cases e with
                | textNode str => simp [hq, setAttrMixed, setAttrElt] at h
                | elt tg a c k =>
                  simp only [hq, setAttrMixed, setAttrElt, Option.some_bind,
                    Option.map_some'] at h
                  injection h with h
                  subst h
                  refine ⟨tg, a, c, k, by simp [getInlineAt, getCell, hk, hr, hc, hq], ?_⟩
                  have hq2 := sumMap_set (cntMixed p) cell.kids n _
                    (.inline (.elt tg (a ++ [kv]) c k)) hq
                  have hc2 := sumMap_set (cntCell p) row c0 _
                    { cell with kids := cell.kids.set n (.inline (.elt tg (a ++ [kv]) c k)) } hc
                  have hr2 := sumMap_set (cntRow p) t.rows r _
                    (row.set c0 { cell with kids := cell.kids.set n (.inline (.elt tg (a ++ [kv]) c k)) }) hr
                  have hs := sumMap_set (cntSectChild p) s.kids i _
                    (.tbl { t with rows := t.rows.set r (row.set c0 { cell with kids := cell.kids.set n (.inline (.elt tg (a ++ [kv]) c k)) }) }) hk
                  simp only [cntSect, cntSectChild, cntTable, cntRow, cntCell, cntMixeds,
                    cntMixed, cntI, cntIs_append, Function.comp] at hq2 hc2 hr2 hs ⊢
                  omega
  | cellP i r c0 j =>
    simp only [setAttrAt, updIdx_eq] at h
    cases hk : s.kids[i]? with
    | none => rw [hk] at h; exact Option.noConfusion h
    | some kchild =>
      rw [hk] at h
      simp only [Option.some_bind] at h
      cases kchild with
      | par pp => simp at h
      | h2 ks => simp at h
      | aside ks => simp at h
      | tbl t =>
        cases hr : t.rows[r]? with
        | none => simp [hr] at h
        | some row =>
          cases hc : row[c0]? with
          | none => simp [hr, hc] at h
          | some cell =>
            simp only [hr, hc, Option.some_bind, Option.map_map, Function.comp,
              Option.map_some'] at h
            cases hq : cell.kids[j]? with
            | none => simp [hq] at h
            | some m =>
              cases m with
              | inline v => simp [hq] at h
              | par pp =>
                simp only [hq, Option.some_bind, Option.map_map, Function.comp,
                  Option.map_some'] at h
                cases hn : pp.kids[n]? with
                | none => simp [hn] at h
                | some e =>
                  cases e with
                  | textNode str => simp [hn, setAttrElt] at h
                  | elt tg a c k =>
                    simp only [hn, setAttrElt, Option.some_bind, Option.map_some'] at h
                    injection h with h
                    subst h
                    refine ⟨tg, a, c, k,
                      by simp [getInlineAt, getCell, hk, hr, hc, hq, hn], ?_⟩
                    have hi := cntIs_set p pp.kids n _ (.elt tg (a ++ [kv]) c k) hn
                    have hq2 := sumMap_set (cntMixed p) cell.kids j _
                      (.par { pp with kids := pp.kids.set n (.elt tg (a ++ [kv]) c k) }) hq
                    have hc2 := sumMap_set (cntCell p) row c0 _
                      { cell with kids := cell.kids.set j (.par { pp with kids := pp.kids.set n (.elt tg (a ++ [kv]) c k) }) } hc
                    have hr2 := sumMap_set (cntRow p) t.rows r _
                      (row.set c0 { cell with kids := cell.kids.set j (.par { pp with kids := pp.kids.set n (.elt tg (a ++ [kv]) c k) }) }) hr
                    have hs := sumMap_set (cntSectChild p) s.kids i _
                      (.tbl { t with rows := t.rows.set r (row.set c0 { cell with kids := cell.kids.set j (.par { pp with kids := pp.kids.set n (.elt tg (a ++ [kv]) c k) }) }) }) hk
                    simp only [cntSect, cntSectChild, cntTable, cntRow, cntCell,
                      cntMixeds, cntMixed, cntPara, cntI, cntIs_append, Function.comp] at hi hq2 hc2 hr2 hs ⊢
                    omega

/-- `destEl` only ever appends an empty paragraph or heading, so it never
changes any count. -/
theorem cntSect_destEl (p : Inline → Bool) (d : Dest) (s : Sect) (loc : Loc) (s1 : Sect)
    (h : destEl d s = .ok (loc, s1)) : cntSect p s1 = cntSect p s := by
  cases d <;> (rw [destEl] at h; repeat' split at h) <;>
    first
      | exact Except.noConfusion h
      | (injection h with h; injection h with h1 h2; subst h2; rfl)
      | (injection h with h
         injection h with h1 h2
         subst h2
         simp [cntSect, cntSectChild, cntPara, cntIs])

theorem cntRows_pushLastRow (p : Inline → Bool) :
    ∀ (rows : List (List Cell)) (c : Cell),
      ((pushLastRow rows c).map (cntRow p)).sum
        = (rows.map (cntRow p)).sum + cntCell p c
  | [], c => by simp [pushLastRow, cntRow]
  | [row], c => by
    simp [pushLastRow, cntRow]
  | r1 :: r2 :: rows, c => by
    show (List.map (cntRow p) (r1 :: pushLastRow (r2 :: rows) c)).sum = _
    simp only [List.map_cons, List.sum_cons, cntRows_pushLastRow p (r2 :: rows) c]
    omega

/-- The cell directive only adds an empty cell, so it never changes any
count. -/
theorem cntTable_cellDirective (p : Inline → Bool) (t : Table) (hd : Bool) (t' : Table)
    (h : cellDirective t hd = .ok t') : cntTable p t' = cntTable p t := by
  unfold cellDirective at h
  dsimp only [] at h
  repeat' split at h
  · injection h with h
    subst h
    simp [cntTable, cntRow, cntCell, cntMixeds]
  · exact Except.noConfusion h
  · injection h with h
    subst h
    simp [cntTable, cntRow, cntCell, cntMixeds]
  · injection h with h
    subst h
    simp only [cntTable]
    rw [cntRows_pushLastRow]
    simp [cntCell, cntMixeds]

theorem cntState_applyReset (p : Inline → Bool) (st : RState) (r : Bool) :
    cntState p (applyReset st r) = cntState p st := by
  cases r <;> rfl

theorem cntBody_append (p : Inline → Bool) (l1 l2 : List BodyChild) :
    cntBody p (l1 ++ l2) = cntBody p l1 + cntBody p l2 := by
  simp [cntBody]

theorem pair_ne_of_fst {a c : String} (b d : String) (h : a ≠ c) : (a, b) ≠ (c, d) := by
  intro hc
  injection hc with h1 _
  exact h h1

theorem styleClasses_no_note (tl : TextLine) (c0 : String)
    (h1 : c0 ≠ "underline") (h2 : c0 ≠ "strikeout") (h3 : c0 ≠ "monospace") :
    c0 ∉ styleClasses tl := by
  unfold styleClasses
  cases tl.underline <;> cases tl.strikeout <;> cases tl.mono <;> simp [h1, h2, h3]

theorem isFwdA_plain (m : Nat) (t : String) (a : List (String × String)) (k : List Inline) :
    isFwdA m (.elt t a [] k) = false :=
  anchorPred_nil_classes _ _ _ _ _ _

theorem isBakA_plain (m : Nat) (t : String) (a : List (String × String)) (k : List Inline) :
    isBakA m (.elt t a [] k) = false :=
  anchorPred_nil_classes _ _ _ _ _ _

theorem isFwdA_span (m : Nat) (tl : TextLine) (t : String) (a : List (String × String))
    (k : List Inline) : isFwdA m (.elt t a (styleClasses tl) k) = false := by
  simp [isFwdA, anchorPred_elt]
  intro hc
  exact absurd hc (styleClasses_no_note tl "to-note" (by decide) (by decide) (by decide))

theorem isBakA_span (m : Nat) (tl : TextLine) (t : String) (a : List (String × String))
    (k : List Inline) : isBakA m (.elt t a (styleClasses tl) k) = false := by
  simp [isBakA, anchorPred_elt]
  intro hc
  exact absurd hc (styleClasses_no_note tl "from-note" (by decide) (by decide) (by decide))

theorem isFwdA_text (m : Nat) (s : String) : isFwdA m (.textNode s) = false := rfl

theorem isBakA_text (m : Nat) (s : String) : isBakA m (.textNode s) = false := rfl

theorem cntIs_fragNodes_zero (p : Inline → Bool)
    (hT : ∀ s, p (.textNode s) = false)
    (hE : ∀ t a k, p (.elt t a [] k) = false) :
    ∀ l, cntIs p (fragNodes l) = 0
  | [] => rfl
  | [s] => by simp [fragNodes, cntIs, cntI, hT]
  | s :: s2 :: rest => by
    show cntIs p (.textNode s :: brElt :: fragNodes (s2 :: rest)) = 0
    simp [cntIs, cntI, hT, brElt, hE, cntIs_fragNodes_zero p hT hE (s2 :: rest)]

theorem cntIs_textWrap_zero (p : Inline → Bool) (tl : TextLine)
    (hE : ∀ t a k, p (.elt t a [] k) = false)
    (hS : ∀ t a k, p (.elt t a (styleClasses tl) k) = false)
    (inner : List Inline) (hi : cntIs p inner = 0) :
    cntIs p (textWrap tl inner) = 0 := by
  unfold textWrap
  cases h1 : tl.italic <;> cases h2 : tl.bold
    <;> cases h3 : (tl.underline || tl.strikeout || tl.mono)
    <;> cases h4 : tl.supertext <;> cases h5 : tl.subtext
    <;> simp [cntIs, cntI, hE, hS, hi]

/-- Whether a line is a NOTE-entering DESTINATION line, as a 0/1 count. -/
def noteBit : Line → Nat
  | .typed tl =>
    match tl.kind with
    | .tDestination .note _ => 1
    | _ => 0
  | .text _ => 0

/-- Number of NOTE-entering DESTINATION lines in a stream. -/
def noteCount (ls : List Line) : Nat := (ls.map noteBit).sum

theorem cntState_split (p : Inline → Bool) (st : RState) :
    cntState p st = cntBody p st.done + cntSect p st.sect := by
  simp [cntState, bodyOf, cntBody, cntBodyChild]

theorem cntBody_sec_singleton (p : Inline → Bool) (s : Sect) :
    cntBody p [.sec s] = cntSect p s := by
  simp [cntBody, cntBodyChild]

theorem cntBody_hr (p : Inline → Bool) : cntBody p [.hr] = 0 := rfl

/-- One step of the render loop, counted against an anchor-style predicate:
a predicate that is false on text nodes, on elements with no classes, and on
the style wrapper spans, that ignores an element's children and any `src` or
`title` attribute appended to it, and that holds on exactly one of the two
anchors of footnote `m` - in total the pair of a footnote `n` counts `1`
exactly when `n = m`.  Such a step adds one match exactly when the line is a
NOTE destination line taken at `noteIndex = m`, and advances `noteIndex` by
the note bit. -/
theorem stepLine_anchorCount (p : Inline → Bool) (m : Nat)
    (hT : ∀ s, p (.textNode s) = false)
    (hE : ∀ t a k, p (.elt t a [] k) = false)
    (hS : ∀ tl t a k, p (.elt t a (styleClasses tl) k) = false)
    (hSrc : ∀ t a c k kk v, p (.elt t (a ++ [("src", v)]) c k) = p (.elt t a c kk))
    (hTit : ∀ t a c k kk v, p (.elt t (a ++ [("title", v)]) c k) = p (.elt t a c kk))
    (hKids : ∀ t a c k kk, p (.elt t a c k) = p (.elt t a c kk))
    (hNote : ∀ n, ((if p (fwdAnchorElt n) = true then 1 else 0)
        + (if p (bakAnchorElt n) = true then 1 else 0) : Nat)
        = if n = m then 1 else 0)
    (st0 st' : RState) (l : Line) (h : stepLine st0 l = .ok st') :
    cntState p st' = cntState p st0
        + (if st0.noteIndex = m then 1 else 0) * noteBit l
      ∧ st'.noteIndex = st0.noteIndex + noteBit l := by
  cases l with
  | text tl =>
    have hc0 := cntState_applyReset p st0 tl.reset
    have hn0 := applyReset_noteIndex st0 tl.reset
    have hadds : cntIs p (textWrap tl (fragNodes (tl.text.splitOn "\n"))) = 0 :=
      cntIs_textWrap_zero p tl hE (hS tl) _ (cntIs_fragNodes_zero p hT hE _)
    simp only [stepLine] at h
    set stA := applyReset st0 tl.reset with hgs
    cases hde : destEl stA.dest stA.sect with
    | error e =>
      rw [hde] at h
      exact Except.noConfusion h
    | ok pr =>
      obtain ⟨loc, s1⟩ := pr
      rw [hde] at h
      have hd1 : cntSect p s1 = cntSect p stA.sect :=
        cntSect_destEl p stA.dest stA.sect loc s1 hde
      have e0 : cntState p stA = cntBody p stA.done + cntSect p stA.sect :=
        cntState_split p stA
      cases hl : stA.link with
      | none =>
        simp only [hl] at h
        cases hs2 : appendListAtLoc s1 loc (textWrap tl (fragNodes (tl.text.splitOn "\n"))) with
        | none => rw [hs2] at h; exact Except.noConfusion h
        | some s2 =>
          rw [hs2] at h
          injection h with h
          subst h
          have h2 := cntSect_appendListAtLoc p loc _ s1 s2 hs2
          refine ⟨?_, ?_⟩
          · rw [cntState_split]
            simp only [noteBit, Nat.mul_zero, Nat.add_zero]
            omega
          · simp [noteBit, hn0]
      | some pr2 =>
        obtain ⟨lloc, n⟩ := pr2
        simp only [hl] at h
        by_cases hcont : locContains loc lloc = true
        · simp only [hcont, eq_self_iff_true, if_true] at h
          cases hs2 : appendIntoAnchor s1 lloc n
              (textWrap tl (fragNodes (tl.text.splitOn "\n"))) with
          | none => rw [hs2] at h; exact Except.noConfusion h
          | some s2 =>
            rw [hs2] at h
            injection h with h
            subst h
            obtain ⟨tg, a, c, k, hget, hcnt⟩ :=
              cntSect_appendIntoAnchor p s1 lloc n _ s2 hs2
            refine ⟨?_, ?_⟩
            · simp only [cntI, cntIs_append, hadds] at hcnt
              rw [hKids tg a c (k ++ textWrap tl (fragNodes (tl.text.splitOn "\n"))) k] at hcnt
              rw [cntState_split]
              simp only [noteBit, Nat.mul_zero, Nat.add_zero]
              omega
            · simp [noteBit, hn0]
        · simp only [hcont, if_false, Bool.false_eq_true] at h
          cases hs2 : appendListAtLoc s1 loc
              (textWrap tl (fragNodes (tl.text.splitOn "\n"))) with
          | none => rw [hs2] at h; exact Except.noConfusion h
          | some s2 =>
            rw [hs2] at h
            injection h with h
            subst h
            have h2 := cntSect_appendListAtLoc p loc _ s1 s2 hs2
            refine ⟨?_, ?_⟩
            · rw [cntState_split]
              simp only [noteBit, Nat.mul_zero, Nat.add_zero]
              omega
            · simp [noteBit, hn0]
  | typed tl =>
    obtain ⟨k, r⟩ := tl
    have hc0 := cntState_applyReset p st0 r
    have hn0 := applyReset_noteIndex st0 r
    cases k with
    | tSection align brk =>
      simp only [stepLine] at h
      set stA := applyReset st0 r with hgs
      injection h with h
      subst h
      have e0 : cntState p stA = cntBody p stA.done + cntSect p stA.sect :=
        cntState_split p stA
      refine ⟨?_, ?_⟩
      · rw [cntState_split]
        simp only [noteBit, Nat.mul_zero, Nat.add_zero, cntSect, List.map_nil, List.sum_nil]
        by_cases hek : stA.sect.kids.isEmpty = true
        · have hk : stA.sect.kids = [] := by simpa using hek
          have h0 : cntSect p stA.sect = 0 := by simp [cntSect, hk]
          simp only [hek, eq_self_iff_true, if_true]
          split
          · rw [cntBody_append, cntBody_hr]
            omega
          · omega
        · simp only [hek, Bool.false_eq_true, if_false]
          have hs1 : cntBody p (stA.done ++ [.sec stA.sect])
              = cntBody p stA.done + cntSect p stA.sect := by
            rw [cntBody_append, cntBody_sec_singleton]
          split
          · rw [cntBody_append, cntBody_hr]
            omega
          · omega
      · simp [noteBit, hn0]
    | tParagraph align =>
      simp only [stepLine] at h
      set stA := applyReset st0 r with hgs
      generalize hcls : (match align with | some a => [alignClass a] | none => [])
          = cls at h
      cases hde : destEl stA.dest stA.sect with
      | error e =>
        rw [hde] at h
        exact Except.noConfusion h
      | ok pr =>
        obtain ⟨loc, s1⟩ := pr
        rw [hde] at h
        have hd1 : cntSect p s1 = cntSect p stA.sect :=
          cntSect_destEl p stA.dest stA.sect loc s1 hde
        have e0 : cntState p stA = cntBody p stA.done + cntSect p stA.sect :=
          cntState_split p stA
        cases loc with
        | child i =>
          simp only [] at h
          injection h with h
          subst h
          refine ⟨?_, ?_⟩
          · rw [cntState_split]
            simp only [noteBit, Nat.mul_zero, Nat.add_zero, cntSect, cntSectChild, cntPara,
              cntIs, List.map_append, List.sum_append, List.map_cons, List.sum_cons,
              List.map_nil, List.sum_nil] at e0 hd1 ⊢
            omega
          · simp [noteBit, hn0]
        | asideP i j =>
          simp only [updIdx_eq] at h
          cases hk : s1.kids[i]? with
          | none => rw [hk] at h; exact Except.noConfusion h
          | some kchild =>
            rw [hk] at h
            simp only [Option.some_bind] at h
            cases kchild with
            | par pp => simp at h
            | h2 ks => simp at h
            | tbl t => simp at h
            | aside ks =>
              simp only [Option.map_map, Function.comp, Option.map_some'] at h
              injection h with h
              subst h
              refine ⟨?_, ?_⟩
              · have hs := sumMap_set (cntSectChild p) s1.kids i _
                  (.aside (ks ++ [.par ⟨cls, []⟩])) hk
                rw [cntState_split]
                simp only [noteBit, Nat.mul_zero, Nat.add_zero, cntSect, cntSectChild,
                  cntMixeds, cntMixed, cntPara, cntIs, List.map_append, List.sum_append,
                  List.map_cons, List.sum_cons, List.map_nil, List.sum_nil] at hs e0 hd1 ⊢
                omega
              · simp [noteBit, hn0]
        | cellSelf i r2 c2 =>
          simp only [updIdx_eq] at h
          cases hk : s1.kids[i]? with
          | none => rw [hk] at h; exact Except.noConfusion h
          | some kchild =>
            rw [hk] at h
            simp only [Option.some_bind] at h
            cases kchild with
            | par pp => simp at h
            | h2 ks => simp at h
            | aside ks => simp at h
            | tbl t =>
              cases hr2 : t.rows[r2]? with
              | none => simp [hr2] at h
              | some row =>
                cases hc2 : row[c2]? with
                | none => simp [hr2, hc2] at h
                | some cell =>
                  simp only [hr2, hc2, Option.some_bind, Option.map_map,
                    Function.comp, Option.map_some'] at h
                  injection h with h
                  subst h
                  refine ⟨?_, ?_⟩
                  · have hs1 := sumMap_set (cntCell p) row c2 _
                      { cell with kids := cell.kids ++ [.par ⟨cls, []⟩] } hc2
                    have hs2 := sumMap_set (cntRow p) t.rows r2 _
                      (row.set c2 { cell with kids := cell.kids ++ [.par ⟨cls, []⟩] }) hr2
                    have hs3 := sumMap_set (cntSectChild p) s1.kids i _
                      (.tbl { t with rows := t.rows.set r2 (row.set c2 { cell with
                        kids := cell.kids ++ [.par ⟨cls, []⟩] }) }) hk
                    rw [cntState_split]
                    simp only [noteBit, Nat.mul_zero, Nat.add_zero, cntSect, cntSectChild,
                      cntTable, cntRow, cntCell, cntMixeds, cntMixed, cntPara, cntIs,
                      List.map_append, List.sum_append, List.map_cons, List.sum_cons,
                      List.map_nil, List.sum_nil] at hs1 hs2 hs3 e0 hd1 ⊢
                    omega
                  · simp [noteBit, hn0]
        | cellP i r2 c2 j =>
          simp only [updIdx_eq] at h
          cases hk : s1.kids[i]? with
          | none => rw [hk] at h; exact Except.noConfusion h
          | some kchild =>
            rw [hk] at h
            simp only [Option.some_bind] at h
            cases kchild with
            | par pp => simp at h
            | h2 ks => simp at h
            | aside ks => simp at h
            | tbl t =>
              cases hr2 : t.rows[r2]? with
              | none => simp [hr2] at h
              | some row =>
                cases hc2 : row[c2]? with
                | none => simp [hr2, hc2] at h
                | some cell =>
                  simp only [hr2, hc2, Option.some_bind, Option.map_map,
                    Function.comp, Option.map_some'] at h
                  injection h with h
                  subst h
                  refine ⟨?_, ?_⟩
                  · have hs1 := sumMap_set (cntCell p) row c2 _
                      { cell with kids := cell.kids ++ [.par ⟨cls, []⟩] } hc2
                    have hs2 := sumMap_set (cntRow p) t.rows r2 _
                      (row.set c2 { cell with kids := cell.kids ++ [.par ⟨cls, []⟩] }) hr2
                    have hs3 := sumMap_set (cntSectChild p) s1.kids i _
                      (.tbl { t with rows := t.rows.set r2 (row.set c2 { cell with
                        kids := cell.kids ++ [.par ⟨cls, []⟩] }) }) hk
                    rw [cntState_split]
                    simp only [noteBit, Nat.mul_zero, Nat.add_zero, cntSect, cntSectChild,
                      cntTable, cntRow, cntCell, cntMixeds, cntMixed, cntPara, cntIs,
                      List.map_append, List.sum_append, List.map_cons, List.sum_cons,
                      List.map_nil, List.sum_nil] at hs1 hs2 hs3 e0 hd1 ⊢
                    omega
                  · simp [noteBit, hn0]
    | tHint c =>
      simp only [stepLine] at h
      set stA := applyReset st0 r with hgs
      injection h with h
      subst h
      refine ⟨?_, ?_⟩
      · have e1 : cntState p { stA with hint := some c } = cntState p stA := rfl
        simp only [noteBit, Nat.mul_zero, Nat.add_zero]
        omega
      · simp [noteBit, hn0]
    | tBlob mt dt =>
      simp only [stepLine] at h
      set stA := applyReset st0 r with hgs
      injection h with h
      subst h
      refine ⟨?_, ?_⟩
      · have e1 : cntState p { stA with blob := some (mt, dt) } = cntState p stA := rfl
        simp only [noteBit, Nat.mul_zero, Nat.add_zero]
        omega
      · simp [noteBit, hn0]
    | tTable content =>
      simp only [stepLine] at h
      set stA := applyReset st0 r with hgs
      injection h with h
      subst h
      have e0 : cntState p stA = cntBody p stA.done + cntSect p stA.sect :=
        cntState_split p stA
      refine ⟨?_, ?_⟩
      · rw [cntState_split]
        simp only [noteBit, Nat.mul_zero, Nat.add_zero, cntSect, cntSectChild, cntTable,
          List.map_append, List.sum_append, List.map_cons, List.sum_cons,
          List.map_nil, List.sum_nil] at e0 ⊢
        omega
      · simp [noteBit, hn0]
    | tLink content =>
      simp only [stepLine] at h
      set stA := applyReset st0 r with hgs
      cases hde : destEl stA.dest stA.sect with
      | error e =>
        rw [hde] at h
        exact Except.noConfusion h
      | ok pr =>
        obtain ⟨loc, s1⟩ := pr
        rw [hde] at h
        simp only [] at h
        have hd1 : cntSect p s1 = cntSect p stA.sect :=
          cntSect_destEl p stA.dest stA.sect loc s1 hde
        have e0 : cntState p stA = cntBody p stA.done + cntSect p stA.sect :=
          cntState_split p stA
        cases hcl : containerLen s1 loc with
        | none => rw [hcl] at h; exact Except.noConfusion h
        | some n =>
          rw [hcl] at h
          simp only [] at h
          cases hap : appendAtLoc s1 loc (.elt "a" ([("href", content)]
              ++ (match stA.hint with
                  | some hh => if hh != "" then [("title", hh)] else []
                  | none => [])) [] []) with
          | none => rw [hap] at h; exact Except.noConfusion h
          | some s2 =>
            rw [hap] at h
            injection h with h
            subst h
            have h2 := cntSect_appendAtLoc p s1 loc _ s2 hap
            have h3 : cntI p (Inline.elt "a" ([("href", content)]
                ++ (match stA.hint with
                    | some hh => if hh != "" then [("title", hh)] else []
                    | none => [])) [] []) = 0 := by
              simp [cntI, cntIs, hE]
            refine ⟨?_, ?_⟩
            · rw [cntState_split]
              simp only [noteBit, Nat.mul_zero, Nat.add_zero]
              omega
            · simp [noteBit, hn0]
    | tAnchor content =>
      simp only [stepLine] at h
      set stA := applyReset st0 r with hgs
      cases hde : destEl stA.dest stA.sect with
      | error e =>
        rw [hde] at h
        exact Except.noConfusion h
      | ok pr =>
        obtain ⟨loc, s1⟩ := pr
        rw [hde] at h
        simp only [] at h
        have hd1 : cntSect p s1 = cntSect p stA.sect :=
          cntSect_destEl p stA.dest stA.sect loc s1 hde
        have e0 : cntState p stA = cntBody p stA.done + cntSect p stA.sect :=
          cntState_split p stA
        cases hap : appendAtLoc s1 loc (.elt "a" [("name", content)] [] []) with
        | none => rw [hap] at h; exact Except.noConfusion h
        | some s2 =>
          rw [hap] at h
          injection h with h
          subst h
          have h2 := cntSect_appendAtLoc p s1 loc _ s2 hap
          have h3 : cntI p (Inline.elt "a" [("name", content)] [] []) = 0 := by
            simp [cntI, cntIs, hE]
          refine ⟨?_, ?_⟩
          · rw [cntState_split]
            simp only [noteBit, Nat.mul_zero, Nat.add_zero]
            omega
          · simp [noteBit, hn0]
    | tImage content =>
      simp only [stepLine] at h
      set stA := applyReset st0 r with hgs
      cases hde : destEl stA.dest stA.sect with
      | error e =>
        rw [hde] at h
        exact Except.noConfusion h
      | ok pr =>
        obtain ⟨loc, s1⟩ := pr
        rw [hde] at h
        simp only [] at h
        have hd1 : cntSect p s1 = cntSect p stA.sect :=
          cntSect_destEl p stA.dest stA.sect loc s1 hde
        have e0 : cntState p stA = cntBody p stA.done + cntSect p stA.sect :=
          cntState_split p stA
        cases hcl : containerLen s1 loc with
        | none => rw [hcl] at h; exact Except.noConfusion h
        | some n =>
          rw [hcl] at h
          simp only [] at h
          cases hap : appendAtLoc s1 loc (.elt "img" [] [] []) with
          | none => rw [hap] at h; exact Except.noConfusion h
          | some s2 =>
            rw [hap] at h
            simp only [] at h
            have h2 := cntSect_appendAtLoc p s1 loc _ s2 hap
            have h3 : cntI p (Inline.elt "img" [] [] []) = 0 := by
              simp [cntI, cntIs, hE]
            split at h
            · exact Except.noConfusion h
            · rename_i v hsrc
              cases hs3 : setAttrAt s2 loc n ("src", v) with
              | none => rw [hs3] at h; exact Except.noConfusion h
              | some s3 =>
                rw [hs3] at h
                obtain ⟨tg, a, c, kk, hget, hcnt⟩ :=
                  cntSect_setAttrAt p s2 loc n ("src", v) s3 hs3
                rw [show cntI p (.elt tg (a ++ [("src", v)]) c kk)
                    = cntI p (.elt tg a c kk) from by
                  simp only [cntI, hSrc tg a c kk kk v]] at hcnt
                cases hh : stA.hint with
                | none =>
                  simp only [hh] at h
                  injection h with h
                  subst h
                  refine ⟨?_, ?_⟩
                  · rw [cntState_split]
                    simp only [noteBit, Nat.mul_zero, Nat.add_zero]
                    omega
                  · simp [noteBit, hn0]
                | some hv =>
                  simp only [hh] at h
                  by_cases hnz : (hv != "") = true
                  · simp only [hnz, eq_self_iff_true, if_true] at h
                    cases hs4 : setAttrAt s3 loc n ("title", hv) with
                    | none => rw [hs4] at h; exact Except.noConfusion h
                    | some s4 =>
                      rw [hs4] at h
                      injection h with h
                      subst h
                      obtain ⟨tg2, a2, c2, kk2, hget2, hcnt2⟩ :=
                        cntSect_setAttrAt p s3 loc n ("title", hv) s4 hs4
                      rw [show cntI p (.elt tg2 (a2 ++ [("title", hv)]) c2 kk2)
                          = cntI p (.elt tg2 a2 c2 kk2) from by
                        simp only [cntI, hTit tg2 a2 c2 kk2 kk2 hv]] at hcnt2
                      refine ⟨?_, ?_⟩
                      · rw [cntState_split]
                        simp only [noteBit, Nat.mul_zero, Nat.add_zero]
                        omega
                      · simp [noteBit, hn0]
                  · simp only [hnz, if_false, Bool.false_eq_true] at h
                    injection h with h
                    subst h
                    refine ⟨?_, ?_⟩
                    · rw [cntState_split]
                      simp only [noteBit, Nat.mul_zero, Nat.add_zero]
                      omega
                    · simp [noteBit, hn0]
    | tDestination d hdr =>
      cases d with
      | body =>
        simp only [stepLine] at h
        set stA := applyReset st0 r with hgs
        injection h with h
        subst h
        refine ⟨?_, ?_⟩
        · have e1 : cntState p { stA with link := none, dest := .body }
              = cntState p stA := rfl
          simp only [noteBit, Nat.mul_zero, Nat.add_zero]
          omega
        · simp [noteBit, hn0]
      | head =>
        simp only [stepLine] at h
        set stA := applyReset st0 r with hgs
        injection h with h
        subst h
        have e0 : cntState p stA = cntBody p stA.done + cntSect p stA.sect :=
          cntState_split p stA
        refine ⟨?_, ?_⟩
        · rw [cntState_split]
          simp only [noteBit, Nat.mul_zero, Nat.add_zero, cntSect, List.map_nil, List.sum_nil]
          rw [cntBody_append, cntBody_sec_singleton]
          omega
        · simp [noteBit, hn0]
      | cell =>
        simp only [stepLine] at h
        set stA := applyReset st0 r with hgs
        cases hli : lastIdxWhere isTblChild stA.sect.kids with
        | none => rw [hli] at h; exact Except.noConfusion h
        | some i =>
          rw [hli] at h
          simp only [] at h
          cases hk : stA.sect.kids[i]? with
          | none => rw [hk] at h; exact Except.noConfusion h
          | some kc =>
            rw [hk] at h
            cases kc with
            | par pp => simp only [] at h; exact Except.noConfusion h
            | h2 ks => simp only [] at h; exact Except.noConfusion h
            | aside ks => simp only [] at h; exact Except.noConfusion h
            | tbl t =>
              simp only [] at h
              cases hcd : cellDirective t hdr with
              | error e => rw [hcd] at h; exact Except.noConfusion h
              | ok t' =>
                rw [hcd] at h
                simp only [updIdx_eq, hk, Option.some_bind, Option.map_some'] at h
                injection h with h
                subst h
                have hs := sumMap_set (cntSectChild p) stA.sect.kids i _ (.tbl t') hk
                have htt := cntTable_cellDirective p t hdr t' hcd
                have e0 : cntState p stA = cntBody p stA.done + cntSect p stA.sect :=
                  cntState_split p stA
                refine ⟨?_, ?_⟩
                · rw [cntState_split]
                  simp only [noteBit, Nat.mul_zero, Nat.add_zero, cntSect, cntSectChild]
                    at hs e0 ⊢
                  omega
                · simp [noteBit, hn0]
      | note =>
        simp only [stepLine] at h
        set stA := applyReset st0 r with hgs
        cases hde : destEl stA.dest stA.sect with
        | error e =>
          rw [hde] at h
          exact Except.noConfusion h
        | ok pr =>
          obtain ⟨loc, s1⟩ := pr
          rw [hde] at h
          simp only [] at h
          have hd1 : cntSect p s1 = cntSect p stA.sect :=
            cntSect_destEl p stA.dest stA.sect loc s1 hde
          have e0 : cntState p stA = cntBody p stA.done + cntSect p stA.sect :=
            cntState_split p stA
          cases hap : appendAtLoc s1 loc (fwdAnchorElt stA.noteIndex) with
          | none =>
            rw [show appendAtLoc s1 loc (.elt "a"
                [("name", "flt-note-return-" ++ Nat.repr stA.noteIndex),
                 ("href", "#flt-note-" ++ Nat.repr stA.noteIndex)]
                ["to-note"] [.textNode (Nat.repr stA.noteIndex)]) = none from hap] at h
            exact Except.noConfusion h
          | some s2 =>
            rw [show appendAtLoc s1 loc (.elt "a"
                [("name", "flt-note-return-" ++ Nat.repr stA.noteIndex),
                 ("href", "#flt-note-" ++ Nat.repr stA.noteIndex)]
                ["to-note"] [.textNode (Nat.repr stA.noteIndex)]) = some s2 from hap] at h
            rw [show (Inline.elt "a"
                [("name", "flt-note-" ++ Nat.repr stA.noteIndex),
                 ("href", "#flt-note-return-" ++ Nat.repr stA.noteIndex)]
                ["from-note"] ([] : List Inline)) = bakAnchorElt stA.noteIndex from rfl] at h
            injection h with h
            subst h
            have h2 := cntSect_appendAtLoc p s1 loc _ s2 hap
            have hfw : cntI p (fwdAnchorElt stA.noteIndex)
                = (if p (fwdAnchorElt stA.noteIndex) = true then 1 else 0) := by
              simp [fwdAnchorElt, cntI, cntIs, hT]
            have hbk : cntI p (bakAnchorElt stA.noteIndex)
                = (if p (bakAnchorElt stA.noteIndex) = true then 1 else 0) := by
              simp [bakAnchorElt, cntI, cntIs]
            have hnn := hNote stA.noteIndex
            refine ⟨?_, ?_⟩
            · have h3 : cntSect p { s2 with kids := s2.kids
                  ++ [.aside [.inline (bakAnchorElt stA.noteIndex), .par ⟨[], []⟩]] }
                  = cntSect p s2 + cntI p (bakAnchorElt stA.noteIndex) := by
                simp [cntSect, cntSectChild, cntMixeds, cntMixed, cntPara, cntIs]
              rw [cntState_split]
              simp only [noteBit, Nat.mul_one]
              rw [hn0] at hnn h2 h3 hfw hbk ⊢
              omega
            · simp [noteBit, hn0]

theorem noteBit_le_one (l : Line) : noteBit l = 0 ∨ noteBit l = 1 := by
  cases l with
  | text tl => exact Or.inl rfl
  | typed tl =>
    obtain ⟨k, r⟩ := tl
    cases k with
    | tDestination d hdr => cases d <;> simp [noteBit]
    | _ => simp [noteBit]

/-- The render loop folded over a whole line stream: for an anchor-style
predicate keyed by `m`, a successful run adds one match exactly when `m` is
one of the footnote indices consumed by the stream's NOTE lines, and advances
`noteIndex` by the number of NOTE lines. -/
theorem renderLines_anchorCount (p : Inline → Bool) (m : Nat)
    (hT : ∀ s, p (.textNode s) = false)
    (hE : ∀ t a k, p (.elt t a [] k) = false)
    (hS : ∀ tl t a k, p (.elt t a (styleClasses tl) k) = false)
    (hSrc : ∀ t a c k kk v, p (.elt t (a ++ [("src", v)]) c k) = p (.elt t a c kk))
    (hTit : ∀ t a c k kk v, p (.elt t (a ++ [("title", v)]) c k) = p (.elt t a c kk))
    (hKids : ∀ t a c k kk, p (.elt t a c k) = p (.elt t a c kk))
    (hNote : ∀ n, ((if p (fwdAnchorElt n) = true then 1 else 0)
        + (if p (bakAnchorElt n) = true then 1 else 0) : Nat)
        = if n = m then 1 else 0) :
    ∀ (ls : List Line) (st st' : RState), renderLines st ls = .ok st' →
      cntState p st' = cntState p st
          + (if st.noteIndex ≤ m ∧ m < st.noteIndex + noteCount ls then 1 else 0)
        ∧ st'.noteIndex = st.noteIndex + noteCount ls := by
  intro ls
  induction ls with
  | nil =>
    intro st st' h
    rw [renderLines] at h
    injection h with h
    subst h
    simp [noteCount]
  | cons l rest ih =>
    intro st st' h
    rw [renderLines] at h
    split at h
    · exact Except.noConfusion h
    · rename_i st1 hstep
      obtain ⟨hcnt, hni⟩ :=
        stepLine_anchorCount p m hT hE hS hSrc hTit hKids hNote st st1 l hstep
      obtain ⟨hcnt2, hni2⟩ := ih st1 st' h
      have hnc : noteCount (l :: rest) = noteBit l + noteCount rest := by
        simp [noteCount]
      constructor
      · rw [hcnt2, hcnt, hni, hnc]
        rcases noteBit_le_one l with hb | hb <;> rw [hb] <;> split_ifs <;> omega
      · rw [hni2, hni, hnc]
        omega

theorem cntMixeds_cleanupMixed (p : Inline → Bool) :
    ∀ l : List MixedChild, cntMixeds p (cleanupMixed l) = cntMixeds p l := by
  intro l
  induction l with
  | nil => rfl
  | cons c rest ih =>
    cases c with
    | inline v =>
      have hc : cleanupMixed (.inline v :: rest) = .inline v :: cleanupMixed rest := by
        simp [cleanupMixed]
      rw [hc]
      simp only [cntMixeds, List.map_cons, List.sum_cons] at ih ⊢
      omega
    | par pp =>
      by_cases hk : pp.kids.isEmpty = true
      · have hk' : pp.kids = [] := by simpa using hk
        have hc : cleanupMixed (.par pp :: rest) = cleanupMixed rest := by
          simp [cleanupMixed, hk]
        have h0 : cntMixed p (.par pp) = 0 := by simp [cntMixed, cntPara, hk', cntIs]
        rw [hc]
        simp only [cntMixeds, List.map_cons, List.sum_cons] at ih ⊢
        omega
      · have hc : cleanupMixed (.par pp :: rest) = .par pp :: cleanupMixed rest := by
          simp [cleanupMixed, hk]
        rw [hc]
        simp only [cntMixeds, List.map_cons, List.sum_cons] at ih ⊢
        omega

theorem cntCell_cleanupCell (p : Inline → Bool) (c : Cell) :
    cntCell p (cleanupCell c) = cntCell p c := by
  simp [cleanupCell, cntCell, cntMixeds_cleanupMixed]

theorem cntRow_cleanup (p : Inline → Bool) (row : List Cell) :
    cntRow p (row.map cleanupCell) = cntRow p row := by
  induction row with
  | nil => rfl
  | cons c rest ih =>
    simp only [cntRow, List.map_cons, List.sum_cons] at ih ⊢
    rw [cntCell_cleanupCell]
    omega

theorem cntTable_cleanupTable (p : Inline → Bool) (t : Table) :
    cntTable p (cleanupTable t) = cntTable p t := by
  simp only [cleanupTable, cntTable]
  induction t.rows with
  | nil => rfl
  | cons r rest ih =>
    simp only [List.map_cons, List.sum_cons] at ih ⊢
    rw [cntRow_cleanup]
    omega

theorem cntSect_cleanupSect (p : Inline → Bool) (s : Sect) :
    cntSect p (cleanupSect s) = cntSect p s := by
  simp only [cleanupSect, cntSect]
  induction s.kids with
  | nil => rfl
  | cons k rest ih =>
    cases k with
    | par pp =>
      by_cases hk : pp.kids.isEmpty = true
      · have hk' : pp.kids = [] := by simpa using hk
        simp [List.filterMap_cons, cleanupSectChild, hk, cntSectChild, cntPara, hk',
          cntIs, ih]
      · simp [List.filterMap_cons, cleanupSectChild, hk, cntSectChild, ih]
    | h2 ks => simp [List.filterMap_cons, cleanupSectChild, cntSectChild, ih]
    | tbl t =>
      simp [List.filterMap_cons, cleanupSectChild, cntSectChild, cntTable_cleanupTable, ih]
    | aside ks =>
      simp [List.filterMap_cons, cleanupSectChild, cntSectChild, cntMixeds_cleanupMixed, ih]

/-- The cleanup pass never changes a count: everything it removes had an
empty child list, hence count zero. -/
theorem cntBody_cleanupBody (p : Inline → Bool) :
    ∀ l : List BodyChild, cntBody p (cleanupBody l) = cntBody p l := by
  intro l
  induction l with
  | nil => rfl
  | cons b rest ih =>
    cases b with
    | h1 t => simp [cleanupBody, List.filterMap_cons, cleanupBodyChild, cntBody,
        cntBodyChild] at ih ⊢; omega
    | hr => simp [cleanupBody, List.filterMap_cons, cleanupBodyChild, cntBody,
        cntBodyChild] at ih ⊢; omega
    | sec s =>
      by_cases hk : s.kids.isEmpty = true
      · have hk' : s.kids = [] := by simpa using hk
        have h0 : cntSect p s = 0 := by simp [cntSect, hk']
        simp [cleanupBody, List.filterMap_cons, cleanupBodyChild, hk, cntBody,
          cntBodyChild] at ih ⊢
        omega
      · simp [cleanupBody, List.filterMap_cons, cleanupBodyChild, hk, cntBody,
          cntBodyChild, cntSect_cleanupSect] at ih ⊢
        omega

/-- Splitting a successful run at a prefix. -/
theorem renderLines_append :
    ∀ (pre suf : List Line) (st st' : RState),
      renderLines st (pre ++ suf) = .ok st' →
      ∃ stm, renderLines st pre = .ok stm ∧ renderLines stm suf = .ok st' := by
  intro pre
  induction pre with
  | nil =>
    intro suf st st' h
    exact ⟨st, rfl, h⟩
  | cons l rest ih =>
    intro suf st st' h
    rw [List.cons_append, renderLines] at h
    split at h
    · exact Except.noConfusion h
    · rename_i st1 hstep
      obtain ⟨stm, h1, h2⟩ := ih suf st1 st' h
      refine ⟨stm, ?_, h2⟩
      rw [renderLines, hstep]
      exact h1

theorem cntState_initState (p : Inline → Bool) (heading : Option String) :
    cntState p (initState heading) = 0 := by
  cases heading <;>
    simp [cntState, initState, bodyOf, cntBody, cntBodyChild, cntSect]

theorem initState_noteIndex (heading : Option String) :
    (initState heading).noteIndex = 1 := by
  cases heading <;> rfl

/-! Instances of the anchor-predicate hypotheses for `isFwdA` and `isBakA`. -/

theorem isFwdA_src (m : Nat) (t : String) (a : List (String × String)) (c : List String)
    (k kk : List Inline) (v : String) :
    isFwdA m (.elt t (a ++ [("src", v)]) c k) = isFwdA m (.elt t a c kk) :=
  anchorPred_attr_append _ _ _ _ _ _ _ _ _
    (pair_ne_of_fst _ _ (by decide)) (pair_ne_of_fst _ _ (by decide))

theorem isFwdA_title (m : Nat) (t : String) (a : List (String × String)) (c : List String)
    (k kk : List Inline) (v : String) :
    isFwdA m (.elt t (a ++ [("title", v)]) c k) = isFwdA m (.elt t a c kk) :=
  anchorPred_attr_append _ _ _ _ _ _ _ _ _
    (pair_ne_of_fst _ _ (by decide)) (pair_ne_of_fst _ _ (by decide))

theorem isBakA_src (m : Nat) (t : String) (a : List (String × String)) (c : List String)
    (k kk : List Inline) (v : String) :
    isBakA m (.elt t (a ++ [("src", v)]) c k) = isBakA m (.elt t a c kk) :=
  anchorPred_attr_append _ _ _ _ _ _ _ _ _
    (pair_ne_of_fst _ _ (by decide)) (pair_ne_of_fst _ _ (by decide))

theorem isBakA_title (m : Nat) (t : String) (a : List (String × String)) (c : List String)
    (k kk : List Inline) (v : String) :
    isBakA m (.elt t (a ++ [("title", v)]) c k) = isBakA m (.elt t a c kk) :=
  anchorPred_attr_append _ _ _ _ _ _ _ _ _
    (pair_ne_of_fst _ _ (by decide)) (pair_ne_of_fst _ _ (by decide))

theorem isFwdA_kids (m : Nat) (t : String) (a : List (String × String)) (c : List String)
    (k kk : List Inline) : isFwdA m (.elt t a c k) = isFwdA m (.elt t a c kk) :=
  anchorPred_kids _ _ _ _ _ _ _ _

theorem isBakA_kids (m : Nat) (t : String) (a : List (String × String)) (c : List String)
    (k kk : List Inline) : isBakA m (.elt t a c k) = isBakA m (.elt t a c kk) :=
  anchorPred_kids _ _ _ _ _ _ _ _

theorem isFwdA_pair (m n : Nat) :
    ((if isFwdA m (fwdAnchorElt n) = true then 1 else 0)
      + (if isFwdA m (bakAnchorElt n) = true then 1 else 0) : Nat)
      = if n = m then 1 else 0 := by
  by_cases h : n = m <;> simp [isFwdA_fwd, isFwdA_bak, h]

theorem isBakA_pair (m n : Nat) :
    ((if isBakA m (fwdAnchorElt n) = true then 1 else 0)
      + (if isBakA m (bakAnchorElt n) = true then 1 else 0) : Nat)
      = if n = m then 1 else 0 := by
  by_cases h : n = m <;> simp [isBakA_fwd, isBakA_bak, h]

/-- C6.  For every line sequence whose render completes, with N the number of
NOTE-entering DESTINATION lines, the rendered (and cleaned-up) body contains,
for each m, exactly one forward anchor of footnote m and exactly one back
anchor of footnote m when 1 <= m <= N, and none otherwise - so the pairs use
exactly the numbers 1..N, each number once, with the mutually mirrored
name/href identifiers built into the anchor shapes `fwdAnchorElt`/`bakAnchorElt`
that the counting predicates `isFwdA`/`isBakA` recognise.  Moreover the
numbers are assigned in strictly increasing order: after any successfully
processed prefix the anchors present are exactly 1..(notes of the prefix) and
the counter already points at the next number, so later notes always take
strictly larger numbers. -/
theorem c6_footnote_numbering (heading : Option String) (lines : List Line)
    (b : List BodyChild) (h : toHTMLDOM heading lines = .ok b) :
    (∀ m, cntBody (isFwdA m) b
          = (if 1 ≤ m ∧ m < 1 + noteCount lines then 1 else 0)
        ∧ cntBody (isBakA m) b
          = (if 1 ≤ m ∧ m < 1 + noteCount lines then 1 else 0))
    ∧ ∀ pre suf, lines = pre ++ suf →
        ∃ stm, renderLines (initState heading) pre = .ok stm
          ∧ stm.noteIndex = 1 + noteCount pre
          ∧ ∀ m, cntState (isFwdA m) stm
                = (if 1 ≤ m ∧ m < 1 + noteCount pre then 1 else 0)
              ∧ cntState (isBakA m) stm
                = (if 1 ≤ m ∧ m < 1 + noteCount pre then 1 else 0) := by
  rw [toHTMLDOM] at h
  cases hrun : renderLines (initState heading) lines with
  | error e => rw [hrun] at h; exact Except.noConfusion h
  | ok stF =>
    rw [hrun] at h
    simp only [Except.map] at h
    injection h with h
    subst h
    constructor
    · intro m
      have hF := renderLines_anchorCount (isFwdA m) m (isFwdA_text m) (isFwdA_plain m)
        (fun tl t a k => isFwdA_span m tl t a k)
        (fun t a c k kk v => isFwdA_src m t a c k kk v)
        (fun t a c k kk v => isFwdA_title m t a c k kk v)
        (fun t a c k kk => isFwdA_kids m t a c k kk)
        (fun n => isFwdA_pair m n) lines (initState heading) stF hrun
      have hB := renderLines_anchorCount (isBakA m) m (isBakA_text m) (isBakA_plain m)
        (fun tl t a k => isBakA_span m tl t a k)
        (fun t a c k kk v => isBakA_src m t a c k kk v)
        (fun t a c k kk v => isBakA_title m t a c k kk v)
        (fun t a c k kk => isBakA_kids m t a c k kk)
        (fun n => isBakA_pair m n) lines (initState heading) stF hrun
      rw [initState_noteIndex, cntState_initState] at hF hB
      have eF : cntBody (isFwdA m) (bodyOf stF) = cntState (isFwdA m) stF := rfl
      have eB : cntBody (isBakA m) (bodyOf stF) = cntState (isBakA m) stF := rfl
      rw [cntBody_cleanupBody, cntBody_cleanupBody, eF, eB, hF.1, hB.1]
      omega
    · intro pre suf hps
      rw [hps] at hrun
      obtain ⟨stm, h1, h2⟩ := renderLines_append pre suf _ _ hrun
      refine ⟨stm, h1, ?_, ?_⟩
      · have hF := renderLines_anchorCount (isFwdA 0) 0 (isFwdA_text 0) (isFwdA_plain 0)
          (fun tl t a k => isFwdA_span 0 tl t a k)
          (fun t a c k kk v => isFwdA_src 0 t a c k kk v)
          (fun t a c k kk v => isFwdA_title 0 t a c k kk v)
          (fun t a c k kk => isFwdA_kids 0 t a c k kk)
          (fun n => isFwdA_pair 0 n) pre (initState heading) stm h1
        rw [initState_noteIndex] at hF
        omega
      · intro m
        have hF := renderLines_anchorCount (isFwdA m) m (isFwdA_text m) (isFwdA_plain m)
          (fun tl t a k => isFwdA_span m tl t a k)
          (fun t a c k kk v => isFwdA_src m t a c k kk v)
          (fun t a c k kk v => isFwdA_title m t a c k kk v)
          (fun t a c k kk => isFwdA_kids m t a c k kk)
          (fun n => isFwdA_pair m n) pre (initState heading) stm h1
        have hB := renderLines_anchorCount (isBakA m) m (isBakA_text m) (isBakA_plain m)
          (fun tl t a k => isBakA_span m tl t a k)
          (fun t a c k kk v => isBakA_src m t a c k kk v)
          (fun t a c k kk v => isBakA_title m t a c k kk v)
          (fun t a c k kk => isBakA_kids m t a c k kk)
          (fun n => isBakA_pair m n) pre (initState heading) stm h1
        rw [initState_noteIndex, cntState_initState] at hF hB
        rw [hF.1, hB.1]
        omega

/-- C6, witness: a one-line stream with a single NOTE destination renders to
a body whose only anchors are the forward/back pair of footnote 1. -/
theorem c6_footnote_numbering_witness :
    toHTMLDOM none [.typed ⟨.tDestination .note false, false⟩]
        = .ok [BodyChild.sec ⟨[], [.par ⟨[], [fwdAnchorElt 1]⟩,
            .aside [.inline (bakAnchorElt 1)]]⟩]
      ∧ cntBody (isFwdA 1) [BodyChild.sec ⟨[], [.par ⟨[], [fwdAnchorElt 1]⟩,
            .aside [.inline (bakAnchorElt 1)]]⟩] = 1
      ∧ cntBody (isBakA 1) [BodyChild.sec ⟨[], [.par ⟨[], [fwdAnchorElt 1]⟩,
            .aside [.inline (bakAnchorElt 1)]]⟩] = 1
      ∧ cntBody (isFwdA 2) [BodyChild.sec ⟨[], [.par ⟨[], [fwdAnchorElt 1]⟩,
            .aside [.inline (bakAnchorElt 1)]]⟩] = 0 := by
  have hrun : toHTMLDOM none [.typed ⟨.tDestination .note false, false⟩]
      = .ok [BodyChild.sec ⟨[], [.par ⟨[], [fwdAnchorElt 1]⟩,
          .aside [.inline (bakAnchorElt 1)]]⟩] := by rfl
  have hm := c6_footnote_numbering none [.typed ⟨.tDestination .note false, false⟩]
    [BodyChild.sec ⟨[], [.par ⟨[], [fwdAnchorElt 1]⟩,
        .aside [.inline (bakAnchorElt 1)]]⟩] hrun
  refine ⟨hrun, ?_, ?_, ?_⟩
  · rw [(hm.1 1).1]
    decide
  · rw [(hm.1 1).2]
    decide
  · rw [(hm.1 2).1]
    decide

end FltHtml
